import Mathlib

/-!
Verification development for the redis-1.3.6 core (src/redis-1.3.6/redis.c).

The C dictionaries (`dict`) are modelled as association lists with
string keys; `dictFind`, `dictAdd`, `dictReplace` and deletion mirror
the DICT_OK / DICT_ERR protocol of the source.  Machine integers
(`time_t`, `long long`) are modelled as `Int`; byte strings as
`String` or `List Nat` (ASCII codes) where byte-level layout matters.
-/

abbrev Key := String

/-- Model of `dictFind`: first entry with the given key. -/
def dictFind (d : List (Key × α)) (k : Key) : Option α :=
  match d with
  | [] => none
  | e :: rest => if e.1 = k then some e.2 else dictFind rest k

/-- Removal of every entry with the given key (the dict holds one). -/
def dictRemove (d : List (Key × α)) (k : Key) : List (Key × α) :=
  match d with
  | [] => []
  | e :: rest => if e.1 = k then dictRemove rest k else e :: dictRemove rest k

/-- Model of `dictDelete`: the shrunk table plus DICT_OK (`true`) when the
key was present. -/
def dictDelete (d : List (Key × α)) (k : Key) : List (Key × α) × Bool :=
  (dictRemove d k, (dictFind d k).isSome)

/-- Model of `dictAdd`: fails (`none`, DICT_ERR) when the key exists. -/
def dictAdd (d : List (Key × α)) (k : Key) (v : α) : Option (List (Key × α)) :=
  if (dictFind d k).isSome then none else some ((k, v) :: d)

/-- Model of `dictReplace`: the new table plus `true` when the key was
added fresh (the source returns 1 in that case, 0 on replace). -/
def dictReplace (d : List (Key × α)) (k : Key) (v : α) : List (Key × α) × Bool :=
  if (dictFind d k).isSome then ((k, v) :: dictRemove d k, false)
  else ((k, v) :: d, true)

theorem dictFind_nil (k : Key) : dictFind ([] : List (Key × α)) k = none := rfl

theorem dictFind_cons (e : Key × α) (d : List (Key × α)) (k : Key) :
    dictFind (e :: d) k = if e.1 = k then some e.2 else dictFind d k := rfl

theorem dictFind_remove_self (d : List (Key × α)) (k : Key) :
    dictFind (dictRemove d k) k = none := by
  induction d with
  | nil => rfl
  | cons e rest ih =>
      by_cases h : e.1 = k
      · simpa [dictRemove, h] using ih
      · simpa [dictRemove, h, dictFind] using ih

theorem dictFind_remove_ne (d : List (Key × α)) (k k' : Key) (h : k' ≠ k) :
    dictFind (dictRemove d k) k' = dictFind d k' := by
  induction d with
  | nil => rfl
  | cons e rest ih =>
      by_cases he : e.1 = k
      · have hkk : ¬(k = k') := fun hc => h hc.symm
        simpa [dictRemove, he, dictFind, hkk] using ih
      · by_cases he' : e.1 = k'
        · have hne : ¬(k' = k) := h
          simp [dictRemove, he, dictFind, he', hne]
        · simpa [dictRemove, he, dictFind, he'] using ih

theorem mem_of_mem_dictRemove {d : List (Key × α)} {k : Key} {e : Key × α}
    (h : e ∈ dictRemove d k) : e ∈ d := by
  induction d with
  | nil => simp [dictRemove] at h
  | cons f rest ih =>
      by_cases hf : f.1 = k
      · simp only [dictRemove, hf, if_pos] at h
        exact List.mem_cons_of_mem _ (ih h)
      · simp only [dictRemove, hf, if_neg, not_false_iff] at h
        rcases List.mem_cons.mp h with h1 | h2
        · exact h1 ▸ List.mem_cons_self _ _
        · exact List.mem_cons_of_mem _ (ih h2)

theorem ne_of_mem_dictRemove {d : List (Key × α)} {k : Key} {e : Key × α}
    (h : e ∈ dictRemove d k) : e.1 ≠ k := by
  induction d with
  | nil => simp [dictRemove] at h
  | cons f rest ih =>
      by_cases hf : f.1 = k
      · simp only [dictRemove, hf, if_pos] at h
        exact ih h
      · simp only [dictRemove, hf, if_neg, not_false_iff] at h
        rcases List.mem_cons.mp h with h1 | h2
        · subst h1; exact hf
        · exact ih h2

theorem dictFind_isSome_of_mem {d : List (Key × α)} {e : Key × α} (h : e ∈ d) :
    (dictFind d e.1).isSome = true := by
  induction d with
  | nil => cases h
  | cons f rest ih =>
      rcases List.mem_cons.mp h with h1 | h2
      · subst h1; simp [dictFind]
      · by_cases hf : f.1 = e.1
        · simp [dictFind, hf]
        · simpa [dictFind, hf] using ih h2

/-! ## Replies

Wire replies built by `addReply` and friends, one constructor per shared
reply shape.  A command's output is a `List Reply`, in emission order; a
multi-bulk reply is its `*n` header followed by its parts, exactly as
the source emits them. -/

inductive Reply where
  | status (s : String)
  | error (s : String)
  | integer (n : Int)
  | bulk (s : String)
  | nullbulk
  | mbheader (n : Int)
deriving DecidableEq

/-! ## Hash objects (zipmap and hashtable encodings)

`hsetCommand` / `convertToRealHash` from the source.  Both physical
encodings store field/value byte strings; the zipmap keeps insertion
order, the hashtable is modelled by the same association-list
operations as every other dict.  A command argument object is either a
raw string or an integer-encoded string (`tryObjectEncoding`); its
decoded byte content is `robjBytes`. -/

inductive HashEnc where
  | zipmap
  | ht
deriving DecidableEq

structure HashObj where
  enc : HashEnc
  entries : List (Key × String)
deriving DecidableEq

inductive RObjStr where
  | raw (s : String)
  | intenc (n : Int)
deriving DecidableEq

/-- Decoded byte content of an argument object (`getDecodedObject`). -/
def robjBytes : RObjStr → String
  | .raw s => s
  | .intenc n => toString n

/-- Model of `createHashObject`: an empty zipmap. -/
def createHashObject : HashObj := ⟨HashEnc.zipmap, []⟩

/-- Model of `zipmapSet`: replace in place when the field exists
(`update = true`), else append at the end of the byte buffer. -/
def zipmapSet (zm : List (Key × String)) (f v : String) :
    List (Key × String) × Bool :=
  match zm with
  | [] => ([(f, v)], false)
  | e :: rest =>
      if e.1 = f then ((f, v) :: rest, true)
      else
        let r := zipmapSet rest f v
        (e :: r.1, r.2)

/-- Model of `convertToRealHash`: re-insert every zipmap pair into a
fresh hashtable; the stored byte strings are unchanged. -/
def convertToRealHash (o : HashObj) : HashObj := ⟨HashEnc.ht, o.entries⟩

/-- The `sdslen(...) > server.hash_max_zipmap_value` test of
`hsetCommand`: it fires only for REDIS_ENCODING_RAW arguments, an
integer-encoded argument is never measured. -/
def rawLongerThan (maxValue : Nat) : RObjStr → Bool
  | .raw s => maxValue < s.length
  | .intenc _ => false

/-- Per-hash effect of `hsetCommand` (the part after the key lookup),
given the two configuration watermarks.  Returns the new object and
the `update` flag (`true` when an existing field was overwritten). -/
def hsetOnHash (maxEntries maxValue : Nat) (o : HashObj)
    (field value : RObjStr) : HashObj × Bool :=
  let o1 :=
    if o.enc = HashEnc.zipmap ∧
        (rawLongerThan maxValue field ∨ rawLongerThan maxValue value) then
      convertToRealHash o
    else o
  if o1.enc = HashEnc.zipmap then
    let r := zipmapSet o1.entries (robjBytes field) (robjBytes value)
    let o2 : HashObj := ⟨HashEnc.zipmap, r.1⟩
    if r.2 = false ∧ maxEntries < r.1.length then (convertToRealHash o2, r.2)
    else (o2, r.2)
  else
    let r := dictReplace o1.entries (robjBytes field) (robjBytes value)
    (⟨HashEnc.ht, r.1⟩, !r.2)

/-- Per-hash effect of `hdelCommand`: `zipmapDel` or `dictDelete`; the
encoding is never changed. -/
def hdelOnHash (o : HashObj) (field : RObjStr) : HashObj × Bool :=
  (⟨o.enc, dictRemove o.entries (robjBytes field)⟩,
   (dictFind o.entries (robjBytes field)).isSome)

/-- Per-hash effect of `hgetCommand`: `zipmapGet` or `dictFind`; both
encodings resolve a field by its decoded bytes. -/
def hgetOnHash (o : HashObj) (field : RObjStr) : Option String :=
  dictFind o.entries (robjBytes field)

/-! ## Values and databases -/

inductive RVal where
  | rstr (s : String)
  | rlist (xs : List String)
  | rhash (h : HashObj)
deriving DecidableEq

/-- One `redisDb`: the main dict, the expires dict (absolute seconds)
and the blocking-keys dict (ids of clients parked by BLPOP/BRPOP,
oldest first). -/
structure RedisDb where
  dict : List (Key × RVal)
  expires : List (Key × Int)
  blockingkeys : List (Key × List Nat)
deriving DecidableEq

/-! ## Keyspace and expiry (redis.c, "Expire" section and lookups) -/

/-- Model of `removeExpire`: drop the expiry entry, report whether one
was there. -/
def removeExpire (db : RedisDb) (k : Key) : RedisDb × Bool :=
  ({ db with expires := dictRemove db.expires k },
   (dictFind db.expires k).isSome)

/-- Model of `setExpire`: `dictAdd` into expires, failing when the key
already has an expiry. -/
def setExpire (db : RedisDb) (k : Key) (w : Int) : RedisDb × Bool :=
  match dictAdd db.expires k w with
  | none => (db, false)
  | some ex => ({ db with expires := ex }, true)

/-- Model of `getExpire`: the stored absolute time, or -1 when the key
is not volatile. -/
def getExpire (db : RedisDb) (k : Key) : Int :=
  match dictFind db.expires k with
  | none => -1
  | some w => w

/-- Model of `expireIfNeeded`: delete the key from both dicts exactly
when it has an expiry and `time(NULL) > when` (an expiry equal to `now`
does not yet evict). -/
def expireIfNeeded (now : Int) (db : RedisDb) (k : Key) : RedisDb × Bool :=
  match dictFind db.expires k with
  | none => (db, false)
  | some w =>
      if now ≤ w then (db, false)
      else
        (⟨dictRemove db.dict k, dictRemove db.expires k, db.blockingkeys⟩,
         (dictFind db.dict k).isSome)

/-- Model of `deleteIfVolatile`: delete the key from both dicts as soon
as it has an expiry entry, with no check of the expiry time. -/
def deleteIfVolatile (db : RedisDb) (k : Key) : RedisDb × Bool :=
  match dictFind db.expires k with
  | none => (db, false)
  | some _ =>
      (⟨dictRemove db.dict k, dictRemove db.expires k, db.blockingkeys⟩,
       (dictFind db.dict k).isSome)

/-- Model of `lookupKey`: plain dict lookup. -/
def lookupKey (db : RedisDb) (k : Key) : Option RVal := dictFind db.dict k

/-- Model of `lookupKeyRead`: `expireIfNeeded` then `lookupKey`. -/
def lookupKeyRead (now : Int) (db : RedisDb) (k : Key) :
    RedisDb × Option RVal :=
  let r := expireIfNeeded now db k
  (r.1, lookupKey r.1 k)

/-- Model of `lookupKeyWrite`: `deleteIfVolatile` then `lookupKey`. -/
def lookupKeyWrite (db : RedisDb) (k : Key) : RedisDb × Option RVal :=
  let r := deleteIfVolatile db k
  (r.1, lookupKey r.1 k)

/-- Model of `deleteKey`: remove the expiry entry (when the expires
dict is non-empty) and then the main entry; DICT_OK from the main
delete is the result. -/
def deleteKey (db : RedisDb) (k : Key) : RedisDb × Bool :=
  let ex := if db.expires.isEmpty then db.expires else dictRemove db.expires k
  (⟨dictRemove db.dict k, ex, db.blockingkeys⟩,
   (dictFind db.dict k).isSome)

/-- Model of `expireGenericCommand` (EXPIRE/EXPIREAT body): missing key
replies :0; negative relative time deletes the key and replies :1;
otherwise `setExpire` at `now + seconds` replies :1 on success and :0
when the key already had an expiry. -/
def expireGenericCommand (now : Int) (db : RedisDb) (k : Key)
    (seconds : Int) : RedisDb × List Reply :=
  match dictFind db.dict k with
  | none => (db, [Reply.integer 0])
  | some _ =>
      if seconds < 0 then
        ((deleteKey db k).1, [Reply.integer 1])
      else
        let r := setExpire db k (now + seconds)
        if r.2 then (r.1, [Reply.integer 1]) else (r.1, [Reply.integer 0])

/-- Model of `expireCommand`. -/
def expireCommand (now : Int) (db : RedisDb) (k : Key) (seconds : Int) :
    RedisDb × List Reply :=
  expireGenericCommand now db k seconds

/-- Model of `expireatCommand`: the argument is absolute, the body gets
`t - time(NULL)`. -/
def expireatCommand (now : Int) (db : RedisDb) (k : Key) (t : Int) :
    RedisDb × List Reply :=
  expireGenericCommand now db k (t - now)

/-- Model of `ttlCommand`: `:⟨expire - now⟩` clamped to -1 for
non-volatile keys and already-passed expiries. -/
def ttlCommand (now : Int) (db : RedisDb) (k : Key) : List Reply :=
  let expire := getExpire db k
  let ttl : Int :=
    if expire ≠ -1 then
      if expire - now < 0 then -1 else expire - now
    else -1
  [Reply.integer ttl]

/-! ## String commands -/

/-- Model of `setGenericCommand` (SET when `nx = false`, SETNX when
`nx = true`). -/
def setGenericCommand (db : RedisDb) (k : Key) (v : String) (nx : Bool) :
    RedisDb × List Reply :=
  let db0 := if nx then (deleteIfVolatile db k).1 else db
  match dictAdd db0.dict k (RVal.rstr v) with
  | none =>
      if !nx then
        let db1 : RedisDb :=
          { db0 with dict := (dictReplace db0.dict k (RVal.rstr v)).1 }
        ((removeExpire db1 k).1, [Reply.status "OK"])
      else (db0, [Reply.integer 0])
  | some d =>
      let db1 : RedisDb := { db0 with dict := d }
      ((removeExpire db1 k).1,
       [if nx then Reply.integer 1 else Reply.status "OK"])

/-- Model of `setCommand`. -/
def setCommand (db : RedisDb) (k : Key) (v : String) : RedisDb × List Reply :=
  setGenericCommand db k v false

/-- Model of `setnxCommand`. -/
def setnxCommand (db : RedisDb) (k : Key) (v : String) :
    RedisDb × List Reply :=
  setGenericCommand db k v true

/-- Model of `getGenericCommand`: read lookup, nil for a missing key,
type error for a non-string; the Bool is REDIS_OK. -/
def getGenericCommand (now : Int) (db : RedisDb) (k : Key) :
    RedisDb × List Reply × Bool :=
  match lookupKeyRead now db k with
  | (db1, none) => (db1, [Reply.nullbulk], true)
  | (db1, some (RVal.rstr s)) => (db1, [Reply.bulk s], true)
  | (db1, some _) =>
      (db1, [Reply.error "wrong type"], false)

/-- Model of `getCommand`. -/
def getCommand (now : Int) (db : RedisDb) (k : Key) : RedisDb × List Reply :=
  let r := getGenericCommand now db k
  (r.1, r.2.1)

/-- Model of `getsetCommand`: GET semantics first (aborting on a type
error), then store the new value and `removeExpire`. -/
def getsetCommand (now : Int) (db : RedisDb) (k : Key) (v : String) :
    RedisDb × List Reply :=
  match getGenericCommand now db k with
  | (db1, rs, false) => (db1, rs)
  | (db1, rs, true) =>
      let db2 : RedisDb :=
        match dictAdd db1.dict k (RVal.rstr v) with
        | none => { db1 with dict := (dictReplace db1.dict k (RVal.rstr v)).1 }
        | some d => { db1 with dict := d }
      ((removeExpire db2 k).1, rs)

/-! ## List commands and blocking ops -/

/-- Model of `unblockClientWaitingData` restricted to the blocking-keys
map: the client id is removed from every waiter list and emptied lists
are dropped from the dict. -/
def unblockClient (db : RedisDb) (cid : Nat) : RedisDb :=
  { db with
    blockingkeys :=
      (db.blockingkeys.map (fun e => (e.1, e.2.filter (fun c => c ≠ cid)))).filter
        (fun e => !e.2.isEmpty) }

/-- Model of `handleClientsWaitingListPush`: when a waiter list exists
for the key, the oldest waiter (list head) receives
`*2␍␊ <key> <element>` and is unblocked; the pushed element is consumed.
`none` means no waiter and the caller stores the element. -/
def handleClientsWaitingListPush (db : RedisDb) (k : Key) (ele : String) :
    RedisDb × Option (Nat × List Reply) :=
  match dictFind db.blockingkeys k with
  | none => (db, none)
  | some l =>
      match l with
      | [] => (db, none)
      | receiver :: _ =>
          (unblockClient db receiver,
           some (receiver, [Reply.mbheader 2, Reply.bulk k, Reply.bulk ele]))

/-- Model of `blockForKeys` restricted to one key: append the client at
the tail of the key's waiter list (creating it on demand). -/
def blockForKey (db : RedisDb) (k : Key) (cid : Nat) : RedisDb :=
  match dictFind db.blockingkeys k with
  | none => { db with blockingkeys := (k, [cid]) :: db.blockingkeys }
  | some l =>
      { db with blockingkeys := (dictReplace db.blockingkeys k (l ++ [cid])).1 }

/-- Model of `pushGenericCommand` (`where = true` is LPUSH/head).
Returns the new db, the pusher's reply, and the delivery made to a
blocked waiter, if any. -/
def pushGenericCommand (whereHead : Bool) (db : RedisDb) (k : Key)
    (v : String) : RedisDb × List Reply × Option (Nat × List Reply) :=
  match lookupKeyWrite db k with
  | (db1, none) =>
      match handleClientsWaitingListPush db1 k v with
      | (db2, some r) => (db2, [Reply.integer 1], some r)
      | (db2, none) =>
          let xs : List String := [v]
          match dictAdd db2.dict k (RVal.rlist xs) with
          | none => (db2, [Reply.integer (xs.length : Int)], none)
          | some d =>
              ({ db2 with dict := d }, [Reply.integer (xs.length : Int)], none)
  | (db1, some (RVal.rlist xs)) =>
      match handleClientsWaitingListPush db1 k v with
      | (db2, some r) => (db2, [Reply.integer 1], some r)
      | (db2, none) =>
          let xs2 := if whereHead then v :: xs else xs ++ [v]
          ({ db2 with dict := (dictReplace db2.dict k (RVal.rlist xs2)).1 },
           [Reply.integer (xs2.length : Int)], none)
  | (db1, some _) => (db1, [Reply.error "wrong type"], none)

/-- Model of `lpushCommand`. -/
def lpushCommand (db : RedisDb) (k : Key) (v : String) :
    RedisDb × List Reply × Option (Nat × List Reply) :=
  pushGenericCommand true db k v

/-- Model of `rpushCommand`. -/
def rpushCommand (db : RedisDb) (k : Key) (v : String) :
    RedisDb × List Reply × Option (Nat × List Reply) :=
  pushGenericCommand false db k v

/-- Model of `popGenericCommand` (`where = true` is LPOP/head): write
lookup, nil for a missing key or empty list, else detach and reply the
element.  The emptied list object stays in the dict, as in the source. -/
def popGenericCommand (whereHead : Bool) (db : RedisDb) (k : Key) :
    RedisDb × List Reply :=
  match lookupKeyWrite db k with
  | (db1, none) => (db1, [Reply.nullbulk])
  | (db1, some (RVal.rlist xs)) =>
      match (if whereHead then xs.head? else xs.getLast?) with
      | none => (db1, [Reply.nullbulk])
      | some e =>
          let xs2 := if whereHead then xs.tail else xs.dropLast
          ({ db1 with dict := (dictReplace db1.dict k (RVal.rlist xs2)).1 },
           [Reply.bulk e])
  | (db1, some _) => (db1, [Reply.error "wrong type"])

/-- Model of `llenCommand`: read lookup, :0 for a missing key, type
error otherwise, else the list length. -/
def llenCommand (now : Int) (db : RedisDb) (k : Key) : RedisDb × List Reply :=
  match lookupKeyRead now db k with
  | (db1, none) => (db1, [Reply.integer 0])
  | (db1, some (RVal.rlist xs)) => (db1, [Reply.integer (xs.length : Int)])
  | (db1, some _) => (db1, [Reply.error "wrong type"])

/-! ## Hash command at database level -/

/-- Model of `hsetCommand`: write lookup, create an empty zipmap for a
missing key, type error for a non-hash, else `hsetOnHash` and the reply
`:1` for a fresh field, `:0` for an update. -/
def hsetCommand (maxEntries maxValue : Nat) (db : RedisDb) (k : Key)
    (field value : RObjStr) : RedisDb × List Reply :=
  match lookupKeyWrite db k with
  | (db1, none) =>
      let r := hsetOnHash maxEntries maxValue createHashObject field value
      let db2 : RedisDb :=
        match dictAdd db1.dict k (RVal.rhash r.1) with
        | none => db1
        | some d => { db1 with dict := d }
      (db2, [Reply.integer (if r.2 then 0 else 1)])
  | (db1, some (RVal.rhash h)) =>
      let r := hsetOnHash maxEntries maxValue h field value
      ({ db1 with dict := (dictReplace db1.dict k (RVal.rhash r.1)).1 },
       [Reply.integer (if r.2 then 0 else 1)])
  | (db1, some _) => (db1, [Reply.error "wrong type"])

/-- Model of `hgetCommand`. -/
def hgetCommand (now : Int) (db : RedisDb) (k : Key) (field : RObjStr) :
    RedisDb × List Reply :=
  match lookupKeyRead now db k with
  | (db1, none) => (db1, [Reply.nullbulk])
  | (db1, some (RVal.rhash h)) =>
      match hgetOnHash h field with
      | none => (db1, [Reply.nullbulk])
      | some v => (db1, [Reply.bulk v])
  | (db1, some _) => (db1, [Reply.error "wrong type"])

/-! ## Non type-specific commands -/

/-- Model of `delCommand` on one key argument. -/
def delOneKey (db : RedisDb) (k : Key) : RedisDb × Nat :=
  let r := deleteKey db k
  (r.1, if r.2 then 1 else 0)

/-- Model of `delCommand`: delete each argument in turn, reply the
number that existed. -/
def delCommand (db : RedisDb) (ks : List Key) : RedisDb × List Reply :=
  let r := ks.foldl (fun acc k =>
    let s := delOneKey acc.1 k
    (s.1, acc.2 + s.2)) (db, 0)
  (r.1, [Reply.integer (r.2 : Int)])

/-- Model of `flushdbCommand`: empty both dicts. -/
def flushdbCommand (db : RedisDb) : RedisDb × List Reply :=
  (⟨[], [], db.blockingkeys⟩, [Reply.status "OK"])

/-! ## Active expiry (serverCron)

`dictGetRandomKey` is modelled by an oracle stream of raw indices; each
draw picks `oracle.head % size` in the current expires dict, exactly
one entry per iteration of the `while(num--)` loop. -/

/-- REDIS_EXPIRELOOKUPS_PER_CRON. -/
def expireLookupsPerCron : Nat := 100

/-- One `while(num--)` loop of the expiry cycle: sample, delete when
`now > t`, count.  Also returns the sampled entries in draw order. -/
def expireLoop (now : Int) (db : RedisDb) (oracle : List Nat) (num : Nat) :
    RedisDb × Nat × List (Key × Int) :=
  match num with
  | 0 => (db, 0, [])
  | n + 1 =>
      match db.expires with
      | [] => (db, 0, [])
      | e0 :: rest0 =>
          let es := e0 :: rest0
          let idx := (oracle.headI) % es.length
          let e := es.getD idx e0
          if now > e.2 then
            let db1 := (deleteKey db e.1).1
            let r := expireLoop now db1 oracle.tail n
            (r.1, r.2.1 + 1, e :: r.2.2)
          else
            let r := expireLoop now db oracle.tail n
            (r.1, r.2.1, e :: r.2.2)

/-- One round of the `do ... while` in `serverCron`: the batch is the
expires size clamped at 100. -/
def expireCycleRound (now : Int) (db : RedisDb) (oracle : List Nat) :
    RedisDb × Nat × List (Key × Int) :=
  expireLoop now db oracle (min db.expires.length expireLookupsPerCron)

/-- The `while (expired > REDIS_EXPIRELOOKUPS_PER_CRON/4)` repeat
condition of `serverCron`: a constant threshold of 25 sampled
expirations, whatever the batch size was. -/
def expireCycleRepeats (expired : Nat) : Bool :=
  expireLookupsPerCron / 4 < expired

/-- Full per-database expiry cycle of `serverCron`: one round per
oracle, repeating while the repeat condition holds (the oracle list
bounds the rounds; the source loop is unbounded). -/
def activeExpireCycle (now : Int) (db : RedisDb) :
    List (List Nat) → RedisDb
  | [] => db
  | oracle :: rest =>
      let r := expireCycleRound now db oracle
      if expireCycleRepeats r.2.1 then activeExpireCycle now r.1 rest
      else r.1

/-! ## Command dispatch, MULTI/EXEC (processCommand, execCommand)

The dispatcher is modelled from the point where a complete argument
vector exists (inline or multi-bulk framing already resolved; the
framing itself is modelled separately below).  Client flags relevant
here: REDIS_MULTI and the queued command list (`mstate`), plus a
`closed` marker for `freeClient`. -/

structure MClient where
  multi : Bool
  mstate : List (List String)
  closed : Bool
deriving DecidableEq

/-- The command-table rows used here: name and arity (negative =
minimum), from the static table in redis.c. -/
def cmdTable : List (String × Int) :=
  [("get", 2), ("set", 3), ("setnx", 3), ("del", -2),
   ("rpush", 3), ("lpush", 3), ("llen", 2), ("lpop", 2), ("rpop", 2),
   ("hset", 4), ("hget", 3), ("getset", 3),
   ("expire", 3), ("expireat", 3), ("ttl", 2),
   ("ping", 1), ("echo", 2),
   ("multi", 1), ("exec", 1), ("discard", 1)]

/-- Model of `lookupCommand`. -/
def lookupCommand (name : String) : Option Int := dictFind cmdTable name

/-- The arity test of `processCommand`:
`(arity > 0 && arity != argc) || (argc < -arity)` rejects. -/
def arityOk (arity : Int) (argc : Nat) : Bool :=
  !((arity > 0 && arity ≠ (argc : Int)) || ((argc : Int) < -arity))

/-- Model of `strtol` for command arguments (redis uses base 10 and
ignores trailing garbage; a missing number parses as 0).  Only the
plain-decimal forms matter for the modelled commands. -/
def argToInt (s : String) : Int := (s.toInt?).getD 0

/-- Dispatch of one table command to its implementation (`call`).
`multi` sets the client flag; `exec`/`discard` never occur here from a
queue because `processCommand` refuses to queue them, and when reached
directly outside a transaction they reply their without-MULTI error. -/
def callCmd (now : Int) (cl : MClient) (db : RedisDb) (argv : List String) :
    MClient × RedisDb × List Reply :=
  match argv with
  | "ping" :: _ => (cl, db, [Reply.status "PONG"])
  | "echo" :: m :: _ => (cl, db, [Reply.bulk m])
  | "get" :: k :: _ =>
      let r := getCommand now db k
      (cl, r.1, r.2)
  | "set" :: k :: v :: _ =>
      let r := setCommand db k v
      (cl, r.1, r.2)
  | "setnx" :: k :: v :: _ =>
      let r := setnxCommand db k v
      (cl, r.1, r.2)
  | "getset" :: k :: v :: _ =>
      let r := getsetCommand now db k v
      (cl, r.1, r.2)
  | "del" :: ks =>
      let r := delCommand db ks
      (cl, r.1, r.2)
  | "expire" :: k :: s :: _ =>
      let r := expireCommand now db k (argToInt s)
      (cl, r.1, r.2)
  | "expireat" :: k :: t :: _ =>
      let r := expireatCommand now db k (argToInt t)
      (cl, r.1, r.2)
  | "ttl" :: k :: _ => (cl, db, ttlCommand now db k)
  | "lpush" :: k :: v :: _ =>
      let r := lpushCommand db k v
      (cl, r.1, r.2.1)
  | "rpush" :: k :: v :: _ =>
      let r := rpushCommand db k v
      (cl, r.1, r.2.1)
  | "llen" :: k :: _ =>
      let r := llenCommand now db k
      (cl, r.1, r.2)
  | "lpop" :: k :: _ =>
      let r := popGenericCommand true db k
      (cl, r.1, r.2)
  | "rpop" :: k :: _ =>
      let r := popGenericCommand false db k
      (cl, r.1, r.2)
  | "hset" :: k :: f :: v :: _ =>
      let r := hsetCommand 64 512 db k (RObjStr.raw f) (RObjStr.raw v)
      (cl, r.1, r.2)
  | "hget" :: k :: f :: _ =>
      let r := hgetCommand now db k (RObjStr.raw f)
      (cl, r.1, r.2)
  | "multi" :: _ => ({ cl with multi := true }, db, [Reply.status "OK"])
  | "exec" :: _ => (cl, db, [Reply.error "EXEC without MULTI"])
  | "discard" :: _ => (cl, db, [Reply.error "DISCARD without MULTI"])
  | _ => (cl, db, [Reply.error "unknown command"])

/-- The loop of `execCommand`: run the queued vectors in order,
concatenating their replies. -/
def execQueue (now : Int) (cl : MClient) (db : RedisDb) :
    List (List String) → MClient × RedisDb × List Reply
  | [] => (cl, db, [])
  | argv :: rest =>
      let r := callCmd now cl db argv
      let s := execQueue now r.1 r.2.1 rest
      (s.1, s.2.1, r.2.2 ++ s.2.2)

/-- Model of `processCommand` from the point where the argument vector
is complete: QUIT teardown, command lookup, arity check, the MULTI
queueing branch, EXEC, DISCARD, and ordinary dispatch.  (AUTH,
maxmemory and the VM gate are configured off.) -/
def processCommand (now : Int) (cl : MClient) (db : RedisDb)
    (argv : List String) : MClient × RedisDb × List Reply :=
  match argv with
  | [] => (cl, db, [])
  | name :: _ =>
      if name = "quit" then ({ cl with closed := true }, db, [])
      else
        match lookupCommand name with
        | none => (cl, db, [Reply.error "unknown command"])
        | some arity =>
            if !arityOk arity argv.length then
              (cl, db, [Reply.error "wrong number of arguments"])
            else if cl.multi = true ∧ name ≠ "exec" ∧ name ≠ "discard" then
              ({ cl with mstate := cl.mstate ++ [argv] }, db,
               [Reply.status "QUEUED"])
            else if name = "exec" then
              if !cl.multi then (cl, db, [Reply.error "EXEC without MULTI"])
              else
                let r := execQueue now cl db cl.mstate
                ({ r.1 with multi := false, mstate := [] }, r.2.1,
                 Reply.mbheader (cl.mstate.length : Int) :: r.2.2)
            else if name = "discard" then
              if !cl.multi then
                (cl, db, [Reply.error "DISCARD without MULTI"])
              else
                ({ cl with multi := false, mstate := [] }, db,
                 [Reply.status "OK"])
            else callCmd now cl db argv

/-! ## Request framing (processInputBuffer and the bulk-length checks)

The per-client input buffer is a byte list; 10 is the newline byte.
`bulklen = none` models the idle `-1` state; `some n` means `n` bytes
(payload plus CRLF) of a bulk argument are still expected. -/

/-- REDIS_REQUEST_MAX_SIZE: 256 MiB. -/
def redisRequestMaxSize : Nat := 1024 * 1024 * 256

/-- The bulk length bound of `processCommand`: 1 GiB. -/
def redisMaxBulkLen : Int := 1024 * 1024 * 1024

structure ParseClient where
  querybuf : List Nat
  bulklen : Option Nat
deriving DecidableEq

inductive ParseOutcome where
  | closed
  | needMore (c : ParseClient)
  | lineReady (line rest : List Nat)
  | bulkReady (arg : List Nat) (c : ParseClient)
deriving DecidableEq

/-- The `strchr(c->querybuf,'\n')` test. -/
def hasNewlineByte (l : List Nat) : Bool := l.contains 10

/-- One pass of `processInputBuffer`: with no bulk read armed, a
complete line is surrendered to command processing; otherwise a buffer
already at REDIS_REQUEST_MAX_SIZE is a protocol error that frees the
client.  With a bulk read armed there is no size check at all: once
`bulklen` bytes are buffered the payload (minus CRLF) becomes the last
argument. -/
def processInputBufferStep (c : ParseClient) : ParseOutcome :=
  match c.bulklen with
  | none =>
      if hasNewlineByte c.querybuf then
        ParseOutcome.lineReady (c.querybuf.takeWhile (fun b => b ≠ 10))
          ((c.querybuf.dropWhile (fun b => b ≠ 10)).tail)
      else if redisRequestMaxSize ≤ c.querybuf.length then ParseOutcome.closed
      else ParseOutcome.needMore c
  | some bl =>
      if bl ≤ c.querybuf.length then
        ParseOutcome.bulkReady (c.querybuf.take (bl - 2))
          ⟨c.querybuf.drop bl, none⟩
      else ParseOutcome.needMore c

/-- The bulk-length validation of `processCommand` (both the inline
bulk-command path and the `$` multi-bulk path): a negative or
over-1-GiB count replies a protocol error and resets the parser state
(`resetClient`), keeping the connection; otherwise the bulk read is
armed for `count + 2` bytes.  The Bool is `true` when the connection
was closed (it never is here). -/
def armBulkRead (c : ParseClient) (count : Int) :
    ParseClient × List Reply × Bool :=
  if count < 0 ∨ redisMaxBulkLen < count then
    ({ c with bulklen := none },
     [Reply.error "invalid bulk write count"], false)
  else
    ({ c with bulklen := some (count.toNat + 2) }, [], false)

/-! ## Snapshot integer-string encoding (rdbTryIntegerEncoding,
rdbSaveRawString, rdbLoadStringObject)

Byte strings are `List Nat` here; 45 and 43 are the minus and plus
signs, 48..57 the digits.  `long long` decimal printing (`%lld`) and
`strtoll` are modelled over `Int`. -/

/-- Decimal digits of `n`, least significant first; the first argument
is structural fuel, `natDigitsRevB n n` is always enough. -/
def natDigitsRevB : Nat → Nat → List Nat
  | 0, _ => []
  | fuel + 1, n => if n = 0 then [] else n % 10 :: natDigitsRevB fuel (n / 10)

/-- ASCII decimal form of a natural number. -/
def natDecimal (n : Nat) : List Nat :=
  if n = 0 then [48] else ((natDigitsRevB n n).map (· + 48)).reverse

/-- Model of `snprintf(buf,32,"%lld",value)`. -/
def sprintfLL (v : Int) : List Nat :=
  if v < 0 then 45 :: natDecimal v.natAbs else natDecimal v.toNat

/-- Value of a most-significant-first digit list. -/
def digitsToNat (l : List Nat) : Nat := l.foldl (fun a d => a * 10 + d) 0

def isDigitByte (c : Nat) : Bool := 48 ≤ c && c ≤ 57

/-- Digit-run parse: every byte a digit, at least one. -/
def parseDigits (l : List Nat) : Option Nat :=
  if l.isEmpty then none
  else if l.all isDigitByte then some (digitsToNat (l.map (fun c => c - 48)))
  else none

/-- Model of `strtoll` restricted to full-string parses (the caller
checks `endptr[0] == '\0'` and rejects anything else, so partial
parses all end in the same `none`). -/
def strtollFull : List Nat → Option Int
  | [] => none
  | c :: rest =>
      if c = 45 then (parseDigits rest).map (fun n => -(n : Int))
      else if c = 43 then (parseDigits rest).map (fun n => (n : Int))
      else (parseDigits (c :: rest)).map (fun n => (n : Int))

/-- Little-endian bytes of `value & ...` / `(value >> 8k) & 0xFF` for an
in-range two's-complement value. -/
def leBytes (v : Int) (n : Nat) : List Nat :=
  (List.range n).map (fun i => ((v % ((2 : Int) ^ (8 * n))).toNat / 2 ^ (8 * i)) % 256)

/-- Model of `rdbTryIntegerEncoding`: parse, reprint, compare, then
emit `0xC0|ENC_INT8`, `0xC0|ENC_INT16` or `0xC0|ENC_INT32` plus the
little-endian payload for the smallest fitting width. -/
def rdbTryIntegerEncoding (s : List Nat) : Option (List Nat) :=
  match strtollFull s with
  | none => none
  | some value =>
      if sprintfLL value ≠ s then none
      else if -(2 ^ 7) ≤ value ∧ value ≤ 2 ^ 7 - 1 then
        some (192 :: leBytes value 1)
      else if -(2 ^ 15) ≤ value ∧ value ≤ 2 ^ 15 - 1 then
        some (193 :: leBytes value 2)
      else if -((2 : Int) ^ 31) ≤ value ∧ value ≤ 2 ^ 31 - 1 then
        some (194 :: leBytes value 4)
      else none

/-- Model of `rdbSaveLen`: 6-bit, 14-bit big-endian, or 32-bit
big-endian length headers (type bits 00, 01, 10). -/
def rdbSaveLen (len : Nat) : List Nat :=
  if len < 64 then [len]
  else if len < 16384 then [64 + len / 256, len % 256]
  else [128, len / 2 ^ 24 % 256, len / 2 ^ 16 % 256, len / 256 % 256, len % 256]

/-- Model of `rdbSaveRawString`: strings of up to 11 bytes try the
integer encoding first, everything else is a length header plus the
verbatim bytes.  (The LZF branch is omitted: it is config-gated and
applies only to strings longer than 20 bytes, never to an integer
candidate.) -/
def rdbSaveRawString (s : List Nat) : List Nat :=
  if s.length ≤ 11 then
    match rdbTryIntegerEncoding s with
    | some enc => enc
    | none => rdbSaveLen s.length ++ s
  else rdbSaveLen s.length ++ s

/-- Little-endian value of a byte list. -/
def leVal : List Nat → Nat
  | [] => 0
  | b :: rest => b + 256 * leVal rest

/-- The `(signed char)` / `(int16_t)` / `(int32_t)` casts. -/
def signExtend (u : Nat) (nbytes : Nat) : Int :=
  if u < 2 ^ (8 * nbytes - 1) then (u : Int) else (u : Int) - 2 ^ (8 * nbytes)

/-- Model of `rdbLoadIntegerObject`: read the fixed-width little-endian
payload, sign-extend, and print it back with `%lld`. -/
def rdbLoadIntegerObject (enctype : Nat) (input : List Nat) :
    Option (List Nat × List Nat) :=
  if enctype = 0 then
    match input with
    | b0 :: rest => some (sprintfLL (signExtend (leVal [b0]) 1), rest)
    | _ => none
  else if enctype = 1 then
    match input with
    | b0 :: b1 :: rest => some (sprintfLL (signExtend (leVal [b0, b1]) 2), rest)
    | _ => none
  else if enctype = 2 then
    match input with
    | b0 :: b1 :: b2 :: b3 :: rest =>
        some (sprintfLL (signExtend (leVal [b0, b1, b2, b3]) 4), rest)
    | _ => none
  else none

/-- Model of `rdbLoadStringObject` (without the LZF arm): dispatch on
the two top bits of the first byte; selector 3 routes to the special
integer decodings, otherwise the length header is decoded and that many
verbatim bytes are taken. -/
def rdbLoadStringObject (input : List Nat) : Option (List Nat × List Nat) :=
  match input with
  | [] => none
  | b :: rest =>
      if b / 64 = 3 then rdbLoadIntegerObject (b % 64) rest
      else if b / 64 = 0 then
        let len := b % 64
        if len ≤ rest.length then some (rest.take len, rest.drop len) else none
      else if b / 64 = 1 then
        match rest with
        | b2 :: rest2 =>
            let len := (b % 64) * 256 + b2
            if len ≤ rest2.length then some (rest2.take len, rest2.drop len)
            else none
        | _ => none
      else
        match rest with
        | b1 :: b2 :: b3 :: b4 :: rest2 =>
            let len := ((b1 * 256 + b2) * 256 + b3) * 256 + b4
            if len ≤ rest2.length then some (rest2.take len, rest2.drop len)
            else none
        | _ => none

/-! ## The per-database command alphabet for the expiry invariant -/

/-- The modelled operations that touch a database, each projecting the
corresponding command's database effect. -/
inductive DbOp where
  | opGet (k : Key)
  | opSet (k : Key) (v : String)
  | opSetnx (k : Key) (v : String)
  | opGetset (k : Key) (v : String)
  | opDel (ks : List Key)
  | opExpire (k : Key) (s : Int)
  | opExpireat (k : Key) (t : Int)
  | opTtl (k : Key)
  | opLpush (k : Key) (v : String)
  | opRpush (k : Key) (v : String)
  | opLpop (k : Key)
  | opRpop (k : Key)
  | opLlen (k : Key)
  | opHset (maxE maxV : Nat) (k : Key) (f v : RObjStr)
  | opHget (k : Key) (f : RObjStr)
  | opBlock (k : Key) (cid : Nat)
  | opFlushdb
  | opCron (oracles : List (List Nat))

/-- Database effect of one operation at time `now`. -/
def applyOp (now : Int) (op : DbOp) (db : RedisDb) : RedisDb :=
  match op with
  | .opGet k => (getCommand now db k).1
  | .opSet k v => (setCommand db k v).1
  | .opSetnx k v => (setnxCommand db k v).1
  | .opGetset k v => (getsetCommand now db k v).1
  | .opDel ks => (delCommand db ks).1
  | .opExpire k s => (expireCommand now db k s).1
  | .opExpireat k t => (expireatCommand now db k t).1
  | .opTtl _ => db
  | .opLpush k v => (lpushCommand db k v).1
  | .opRpush k v => (rpushCommand db k v).1
  | .opLpop k => (popGenericCommand true db k).1
  | .opRpop k => (popGenericCommand false db k).1
  | .opLlen k => (llenCommand now db k).1
  | .opHset me mv k f v => (hsetCommand me mv db k f v).1
  | .opHget k f => (hgetCommand now db k f).1
  | .opBlock k cid => blockForKey db k cid
  | .opFlushdb => (flushdbCommand db).1
  | .opCron oracles => activeExpireCycle now db oracles

/-- The expiry invariant: every key of the expires dict is present in
the main dict (decidable, quantifying over the entries). -/
def dbInv (db : RedisDb) : Prop :=
  ∀ e ∈ db.expires, (dictFind db.dict e.1).isSome = true

instance (db : RedisDb) : Decidable (dbInv db) := by
  unfold dbInv; infer_instance

/-! ## Pointwise lemmas for the dict primitives -/

theorem dictFind_dictRemove (d : List (Key × α)) (k x : Key) :
    dictFind (dictRemove d k) x = if x = k then none else dictFind d x := by
  by_cases h : x = k
  · simp [h, dictFind_remove_self]
  · simp [h, dictFind_remove_ne d k x h]

theorem dictFind_dictReplace (d : List (Key × α)) (k : Key) (v : α) (x : Key) :
    dictFind (dictReplace d k v).1 x = if k = x then some v else dictFind d x := by
  unfold dictReplace
  by_cases h : (dictFind d k).isSome
  · simp only [h, if_true]
    by_cases hx : k = x
    · subst hx; simp [dictFind]
    · have hxk : x ≠ k := fun hc => hx hc.symm
      simp [dictFind, hx, dictFind_remove_ne d k x hxk]
  · simp only [h, if_false]
    by_cases hx : k = x
    · subst hx; simp [dictFind]
    · simp [dictFind, hx]

theorem dictAdd_eq_some {d d' : List (Key × α)} {k : Key} {v : α}
    (h : dictAdd d k v = some d') : d' = (k, v) :: d := by
  unfold dictAdd at h
  by_cases hs : (dictFind d k).isSome
  · simp [hs] at h
  · simp [hs] at h
    exact h.symm

theorem dictAdd_eq_none {d : List (Key × α)} {k : Key} {v : α}
    (h : dictAdd d k v = none) : (dictFind d k).isSome = true := by
  unfold dictAdd at h
  by_cases hs : (dictFind d k).isSome
  · exact hs
  · simp [hs] at h

theorem dictFind_eq_some_mem {d : List (Key × α)} {x : Key} {v : α}
    (h : dictFind d x = some v) : (x, v) ∈ d := by
  induction d with
  | nil => simp [dictFind] at h
  | cons e rest ih =>
      by_cases he : e.1 = x
      · simp [dictFind, he] at h
        subst h
        have hpe : (x, e.2) = e := by rw [← he]
        exact hpe ▸ List.mem_cons_self _ _
      · simp [dictFind, he] at h
        exact List.mem_cons_of_mem _ (ih h)

/-- Pointwise form of the expiry invariant. -/
theorem dbInv_iff (db : RedisDb) :
    dbInv db ↔
      ∀ x, (dictFind db.expires x).isSome = true →
        (dictFind db.dict x).isSome = true := by
  constructor
  · intro h x hx
    rcases Option.isSome_iff_exists.mp hx with ⟨w, hw⟩
    exact h (x, w) (dictFind_eq_some_mem hw)
  · intro h e he
    exact h e.1 (dictFind_isSome_of_mem he)

/-! ## Preservation of the expiry invariant by each primitive -/

theorem dbInv_removeBoth (db : RedisDb) (k : Key) (bk : List (Key × List Nat))
    (h : dbInv db) :
    dbInv ⟨dictRemove db.dict k, dictRemove db.expires k, bk⟩ := by
  rw [dbInv_iff] at h ⊢
  intro x hx
  simp only [dictFind_dictRemove] at hx ⊢
  by_cases hk : x = k
  · simp [hk] at hx
  · simp only [hk, if_false] at hx ⊢
    exact h x hx

theorem dbInv_growDict (db : RedisDb) (nd : List (Key × RVal))
    (hq : ∀ x, (dictFind db.dict x).isSome = true →
      (dictFind nd x).isSome = true)
    (h : dbInv db) : dbInv { db with dict := nd } := by
  rw [dbInv_iff] at h ⊢
  intro x hx
  exact hq x (h x hx)

theorem dbInv_shrinkExpires (db : RedisDb) (k : Key) (h : dbInv db) :
    dbInv { db with expires := dictRemove db.expires k } := by
  rw [dbInv_iff] at h ⊢
  intro x hx
  simp only [dictFind_dictRemove] at hx
  by_cases hk : x = k
  · simp [hk] at hx
  · simp only [hk, if_false] at hx
    exact h x hx

theorem dbInv_removeExpire (db : RedisDb) (k : Key) (h : dbInv db) :
    dbInv (removeExpire db k).1 :=
  dbInv_shrinkExpires db k h

theorem dbInv_expireIfNeeded (now : Int) (db : RedisDb) (k : Key)
    (h : dbInv db) : dbInv (expireIfNeeded now db k).1 := by
  unfold expireIfNeeded
  cases hf : dictFind db.expires k with
  | none => exact h
  | some w =>
      by_cases ht : now ≤ w
      · simpa [ht] using h
      · simpa [ht] using dbInv_removeBoth db k db.blockingkeys h

theorem dbInv_deleteIfVolatile (db : RedisDb) (k : Key) (h : dbInv db) :
    dbInv (deleteIfVolatile db k).1 := by
  unfold deleteIfVolatile
  cases hf : dictFind db.expires k with
  | none => exact h
  | some w => exact dbInv_removeBoth db k db.blockingkeys h

theorem dbInv_deleteKey (db : RedisDb) (k : Key) (h : dbInv db) :
    dbInv (deleteKey db k).1 := by
  unfold deleteKey
  by_cases he : db.expires.isEmpty
  · rw [dbInv_iff]
    intro x hx
    have hnil : db.expires = [] := List.isEmpty_iff.mp he
    simp only [he, if_true] at hx ⊢
    simp [hnil, dictFind] at hx
  · simpa [he] using dbInv_removeBoth db k db.blockingkeys h

theorem dbInv_setExpire_present (db : RedisDb) (k : Key) (w : Int)
    (hk : (dictFind db.dict k).isSome = true) (h : dbInv db) :
    dbInv (setExpire db k w).1 := by
  unfold setExpire
  cases ha : dictAdd db.expires k w with
  | none => exact h
  | some ex =>
      have hex : ex = (k, w) :: db.expires := dictAdd_eq_some ha
      rw [dbInv_iff] at h ⊢
      intro x hx
      simp only [hex, dictFind] at hx
      by_cases hkx : k = x
      · subst hkx; exact hk
      · simp only [hkx, if_false] at hx
        exact h x hx

theorem dbInv_lookupKeyRead (now : Int) (db : RedisDb) (k : Key)
    (h : dbInv db) : dbInv (lookupKeyRead now db k).1 :=
  dbInv_expireIfNeeded now db k h

theorem dbInv_lookupKeyWrite (db : RedisDb) (k : Key) (h : dbInv db) :
    dbInv (lookupKeyWrite db k).1 :=
  dbInv_deleteIfVolatile db k h

theorem dbInv_dictReplaceDb (db : RedisDb) (k : Key) (v : RVal)
    (h : dbInv db) : dbInv { db with dict := (dictReplace db.dict k v).1 } := by
  refine dbInv_growDict db _ (fun x hx => ?_) h
  rw [dictFind_dictReplace]
  by_cases hk : k = x
  · simp [hk]
  · simpa [hk] using hx

theorem dbInv_dictConsDb (db : RedisDb) (k : Key) (v : RVal)
    (h : dbInv db) : dbInv { db with dict := (k, v) :: db.dict } := by
  refine dbInv_growDict db _ (fun x hx => ?_) h
  rw [dictFind_cons]
  by_cases hk : k = x
  · simp [hk]
  · simpa [hk] using hx

/-! ## Preservation of the expiry invariant by each command -/

theorem dbInv_blocking (db : RedisDb) (bk : List (Key × List Nat)) :
    dbInv { db with blockingkeys := bk } ↔ dbInv db := Iff.rfl

theorem dbInv_handleCWLP (db : RedisDb) (k : Key) (e : String)
    (h : dbInv db) : dbInv (handleClientsWaitingListPush db k e).1 := by
  unfold handleClientsWaitingListPush
  cases hf : dictFind db.blockingkeys k with
  | none => exact h
  | some l =>
      cases l with
      | nil => exact h
      | cons r rest => exact h

theorem handleCWLP_dict (db : RedisDb) (k : Key) (e : String) :
    (handleClientsWaitingListPush db k e).1.dict = db.dict := by
  unfold handleClientsWaitingListPush
  cases hf : dictFind db.blockingkeys k with
  | none => rfl
  | some l => cases l with
      | nil => rfl
      | cons r rest => rfl

theorem handleCWLP_expires (db : RedisDb) (k : Key) (e : String) :
    (handleClientsWaitingListPush db k e).1.expires = db.expires := by
  unfold handleClientsWaitingListPush
  cases hf : dictFind db.blockingkeys k with
  | none => rfl
  | some l => cases l with
      | nil => rfl
      | cons r rest => rfl

theorem dbInv_setGenericCommand (db : RedisDb) (k : Key) (v : String)
    (nx : Bool) (h : dbInv db) : dbInv (setGenericCommand db k v nx).1 := by
  unfold setGenericCommand
  have h0 : dbInv (if nx then (deleteIfVolatile db k).1 else db) := by
    by_cases hnx : nx
    · simpa [hnx] using dbInv_deleteIfVolatile db k h
    · simpa [hnx] using h
  set db0 := if nx then (deleteIfVolatile db k).1 else db with hdb0
  cases ha : dictAdd db0.dict k (RVal.rstr v) with
  | none =>
      by_cases hnx : nx
      · simp only [ha, hnx]
        simpa using h0
      · simp only [ha, hnx]
        simpa using dbInv_removeExpire _ k (dbInv_dictReplaceDb db0 k _ h0)
  | some d =>
      have hd : d = (k, RVal.rstr v) :: db0.dict := dictAdd_eq_some ha
      simp only [ha]
      refine dbInv_removeExpire _ k ?_
      rw [hd]
      exact dbInv_dictConsDb db0 k _ h0

theorem dbInv_setCommand (db : RedisDb) (k : Key) (v : String)
    (h : dbInv db) : dbInv (setCommand db k v).1 :=
  dbInv_setGenericCommand db k v false h

theorem dbInv_setnxCommand (db : RedisDb) (k : Key) (v : String)
    (h : dbInv db) : dbInv (setnxCommand db k v).1 :=
  dbInv_setGenericCommand db k v true h

theorem dbInv_getGenericCommand (now : Int) (db : RedisDb) (k : Key)
    (h : dbInv db) : dbInv (getGenericCommand now db k).1 := by
  unfold getGenericCommand
  have h1 := dbInv_lookupKeyRead now db k h
  split
  all_goals
    rename_i heq
    rw [heq] at h1
    exact h1

theorem dbInv_getCommand (now : Int) (db : RedisDb) (k : Key)
    (h : dbInv db) : dbInv (getCommand now db k).1 :=
  dbInv_getGenericCommand now db k h

theorem dbInv_getsetCommand (now : Int) (db : RedisDb) (k : Key) (v : String)
    (h : dbInv db) : dbInv (getsetCommand now db k v).1 := by
  unfold getsetCommand
  have h1 := dbInv_getGenericCommand now db k h
  split
  · rename_i db1 rs heq
    rw [heq] at h1
    exact h1
  · rename_i db1 rs heq
    rw [heq] at h1
    refine dbInv_removeExpire _ k ?_
    cases ha : dictAdd db1.dict k (RVal.rstr v) with
    | none =>
        simp only [ha]
        exact dbInv_dictReplaceDb db1 k _ h1
    | some d =>
        have hd : d = (k, RVal.rstr v) :: db1.dict := dictAdd_eq_some ha
        simp only [ha, hd]
        exact dbInv_dictConsDb db1 k _ h1

theorem dbInv_delCommand (db : RedisDb) (ks : List Key) (h : dbInv db) :
    dbInv (delCommand db ks).1 := by
  unfold delCommand
  suffices hgen : ∀ acc : RedisDb × Nat, dbInv acc.1 →
      dbInv (ks.foldl (fun acc k =>
        let s := delOneKey acc.1 k
        (s.1, acc.2 + s.2)) acc).1 by
    exact hgen (db, 0) h
  induction ks with
  | nil => intro acc hacc; exact hacc
  | cons k rest ih =>
      intro acc hacc
      exact ih _ (dbInv_deleteKey acc.1 k hacc)

theorem dbInv_expireGenericCommand (now : Int) (db : RedisDb) (k : Key)
    (s : Int) (h : dbInv db) : dbInv (expireGenericCommand now db k s).1 := by
  unfold expireGenericCommand
  cases hf : dictFind db.dict k with
  | none => exact h
  | some v =>
      by_cases hs : s < 0
      · simpa [hs] using dbInv_deleteKey db k h
      · have hset := dbInv_setExpire_present db k (now + s)
          (by simp [hf]) h
        simp only [hs, if_false]
        cases hr : setExpire db k (now + s) with
        | mk db2 b =>
            rw [hr] at hset
            cases b <;> simpa using hset

theorem dbInv_pushGenericCommand (wh : Bool) (db : RedisDb) (k : Key)
    (v : String) (h : dbInv db) : dbInv (pushGenericCommand wh db k v).1 := by
  unfold pushGenericCommand
  have h1 := dbInv_lookupKeyWrite db k h
  split
  · rename_i db1 heq
    rw [heq] at h1
    have h2 := dbInv_handleCWLP db1 k v h1
    split
    · rename_i db2 r heq2
      rw [heq2] at h2
      exact h2
    · rename_i db2 heq2
      rw [heq2] at h2
      cases ha : dictAdd db2.dict k (RVal.rlist [v]) with
      | none => simpa [ha] using h2
      | some d =>
          have hd : d = (k, RVal.rlist [v]) :: db2.dict := dictAdd_eq_some ha
          simp only [ha, hd]
          exact dbInv_dictConsDb db2 k _ h2
  · rename_i db1 xs heq
    rw [heq] at h1
    have h2 := dbInv_handleCWLP db1 k v h1
    split
    · rename_i db2 r heq2
      rw [heq2] at h2
      exact h2
    · rename_i db2 heq2
      rw [heq2] at h2
      exact dbInv_dictReplaceDb db2 k _ h2
  · rename_i db1 o h3 h4 heq
    rw [heq] at h1
    exact h1

theorem dbInv_popGenericCommand (wh : Bool) (db : RedisDb) (k : Key)
    (h : dbInv db) : dbInv (popGenericCommand wh db k).1 := by
  unfold popGenericCommand
  have h1 := dbInv_lookupKeyWrite db k h
  split
  · rename_i db1 heq
    rw [heq] at h1
    exact h1
  · rename_i db1 xs heq
    rw [heq] at h1
    split
    · exact h1
    · exact dbInv_dictReplaceDb db1 k _ h1
  · rename_i db1 o h3 h4 heq
    rw [heq] at h1
    exact h1

theorem dbInv_llenCommand (now : Int) (db : RedisDb) (k : Key)
    (h : dbInv db) : dbInv (llenCommand now db k).1 := by
  unfold llenCommand
  have h1 := dbInv_lookupKeyRead now db k h
  split
  all_goals
    rename_i heq
    rw [heq] at h1
    exact h1

theorem dbInv_hsetCommand (me mv : Nat) (db : RedisDb) (k : Key)
    (f v : RObjStr) (h : dbInv db) : dbInv (hsetCommand me mv db k f v).1 := by
  unfold hsetCommand
  have h1 := dbInv_lookupKeyWrite db k h
  split
  · rename_i db1 heq
    rw [heq] at h1
    cases ha : dictAdd db1.dict k
        (RVal.rhash (hsetOnHash me mv createHashObject f v).1) with
    | none => simpa [ha] using h1
    | some d =>
        have hd := dictAdd_eq_some ha
        simp only [ha, hd]
        exact dbInv_dictConsDb db1 k _ h1
  · rename_i db1 hh heq
    rw [heq] at h1
    exact dbInv_dictReplaceDb db1 k _ h1
  · rename_i db1 o h3 h4 heq
    rw [heq] at h1
    exact h1

theorem dbInv_hgetCommand (now : Int) (db : RedisDb) (k : Key) (f : RObjStr)
    (h : dbInv db) : dbInv (hgetCommand now db k f).1 := by
  unfold hgetCommand
  have h1 := dbInv_lookupKeyRead now db k h
  split
  · rename_i db1 heq
    rw [heq] at h1
    exact h1
  · rename_i db1 hh heq
    rw [heq] at h1
    split <;> exact h1
  · rename_i db1 o h3 h4 heq
    rw [heq] at h1
    exact h1

theorem dbInv_blockForKey (db : RedisDb) (k : Key) (cid : Nat)
    (h : dbInv db) : dbInv (blockForKey db k cid) := by
  unfold blockForKey
  cases hf : dictFind db.blockingkeys k with
  | none => exact h
  | some l => exact h

theorem dbInv_flushdb (db : RedisDb) : dbInv (flushdbCommand db).1 := by
  rw [dbInv_iff]
  intro x hx
  simp [flushdbCommand, dictFind] at hx

theorem dbInv_expireLoop (now : Int) (db : RedisDb) (oracle : List Nat)
    (num : Nat) (h : dbInv db) : dbInv (expireLoop now db oracle num).1 := by
  induction num generalizing db oracle with
  | zero => exact h
  | succ n ih =>
      unfold expireLoop
      cases he : db.expires with
      | nil =>
          simp only [he]
          exact h
      | cons e0 rest0 =>
          simp only [he]
          split
          · exact ih _ _ (dbInv_deleteKey db _ h)
          · exact ih _ _ h

theorem dbInv_activeExpireCycle (now : Int) (db : RedisDb)
    (oracles : List (List Nat)) (h : dbInv db) :
    dbInv (activeExpireCycle now db oracles) := by
  induction oracles generalizing db with
  | nil => exact h
  | cons o rest ih =>
      unfold activeExpireCycle
      have hr := dbInv_expireLoop now db o
        (min db.expires.length expireLookupsPerCron) h
      dsimp only
      split
      · exact ih _ (by simpa [expireCycleRound] using hr)
      · simpa [expireCycleRound] using hr

/-! ## Zipmap / hash lemmas -/

theorem dictFind_zipmapSet (zm : List (Key × String)) (f v g : Key) :
    dictFind (zipmapSet zm f v).1 g =
      if f = g then some v else dictFind zm g := by
  induction zm with
  | nil =>
      by_cases hg : f = g <;> simp [zipmapSet, dictFind, hg]
  | cons e rest ih =>
      by_cases he : e.1 = f
      · by_cases hg : f = g
        · simp [zipmapSet, he, dictFind, hg]
        · have heg : e.1 ≠ g := by rw [he]; exact hg
          simp [zipmapSet, he, dictFind, hg, heg]
      · by_cases hg : e.1 = g
        · have hfg : ¬(f = g) := fun hc => he (hg.symm ▸ hc.symm ▸ rfl)
          have hgf : ¬(g = f) := fun hc => hfg hc.symm
          simp [zipmapSet, he, dictFind, hg, hfg, hgf]
        · simp [zipmapSet, he, dictFind, hg, ih]

theorem zipmapSet_update (zm : List (Key × String)) (f v : Key) :
    (zipmapSet zm f v).2 = (dictFind zm f).isSome := by
  induction zm with
  | nil => simp [zipmapSet, dictFind]
  | cons e rest ih =>
      by_cases he : e.1 = f <;> simp [zipmapSet, dictFind, he, ih]

theorem zipmapSet_length (zm : List (Key × String)) (f v : Key) :
    (zipmapSet zm f v).1.length =
      if (dictFind zm f).isSome then zm.length else zm.length + 1 := by
  induction zm with
  | nil => simp [zipmapSet, dictFind]
  | cons e rest ih =>
      by_cases he : e.1 = f
      · simp [zipmapSet, dictFind, he]
      · simp only [zipmapSet, dictFind, he, if_neg, not_false_iff,
          List.length_cons, ih]
        split <;> simp

/-- Byte length of an argument object's decoded content. -/
def robjLen (x : RObjStr) : Nat := (robjBytes x).length

theorem rawLongerThan_false_of_le {mv : Nat} {x : RObjStr}
    (h : robjLen x ≤ mv) : rawLongerThan mv x = false := by
  cases x with
  | raw s =>
      simp only [rawLongerThan, decide_eq_false_iff_not, not_lt]
      simpa [robjLen, robjBytes] using h
  | intenc n => rfl

/-! ## Unblock lemma for the blocking-pop delivery -/

theorem unblockClient_not_mem (db : RedisDb) (cid : Nat) :
    ∀ e ∈ (unblockClient db cid).blockingkeys, cid ∉ e.2 := by
  intro e he
  unfold unblockClient at he
  simp only at he
  have he2 := List.mem_of_mem_filter he
  rcases List.mem_map.mp he2 with ⟨e0, _, heq⟩
  intro hc
  rw [← heq] at hc
  simp at hc

/-! ## Decimal print/parse round trip -/

/-- Value of a least-significant-first digit list. -/
def ofDigitsRev : List Nat → Nat
  | [] => 0
  | d :: ds => d + 10 * ofDigitsRev ds

theorem ofDigitsRev_natDigitsRevB (fuel : Nat) :
    ∀ n : Nat, n ≤ fuel → ofDigitsRev (natDigitsRevB fuel n) = n := by
  induction fuel with
  | zero =>
      intro n hn
      have : n = 0 := Nat.le_zero.mp hn
      simp [this, natDigitsRevB, ofDigitsRev]
  | succ fuel ih =>
      intro n hn
      unfold natDigitsRevB
      by_cases hz : n = 0
      · simp [hz, ofDigitsRev]
      · have hlt : n / 10 < n := Nat.div_lt_self (Nat.pos_of_ne_zero hz) (by omega)
        have hle : n / 10 ≤ fuel := by omega
        simp only [hz, if_neg, not_false_iff, ofDigitsRev, ih _ hle]
        omega

theorem natDigitsRevB_lt_ten (fuel : Nat) :
    ∀ n : Nat, ∀ d ∈ natDigitsRevB fuel n, d < 10 := by
  induction fuel with
  | zero => intro n d hd; simp [natDigitsRevB] at hd
  | succ fuel ih =>
      intro n d hd
      unfold natDigitsRevB at hd
      by_cases hz : n = 0
      · simp [hz] at hd
      · simp only [hz, if_neg, not_false_iff] at hd
        rcases List.mem_cons.mp hd with h1 | h2
        · subst h1; exact Nat.mod_lt _ (by omega)
        · exact ih _ d h2

theorem natDigitsRevB_length_le (fuel : Nat) :
    ∀ n k : Nat, n < 10 ^ k → (natDigitsRevB fuel n).length ≤ k := by
  induction fuel with
  | zero => intro n k _; simp [natDigitsRevB]
  | succ fuel ih =>
      intro n k hk
      unfold natDigitsRevB
      by_cases hz : n = 0
      · simp [hz]
      · cases k with
        | zero => simp at hk; omega
        | succ k =>
            simp only [hz, if_neg, not_false_iff, List.length_cons,
              Nat.succ_le_succ_iff]
            refine ih _ k ?_
            rw [pow_succ] at hk
            exact Nat.div_lt_of_lt_mul (by omega)

theorem natDigitsRevB_ne_nil {fuel n : Nat} (hn : n ≠ 0) (hf : fuel ≠ 0) :
    natDigitsRevB fuel n ≠ [] := by
  cases fuel with
  | zero => exact absurd rfl hf
  | succ fuel => simp [natDigitsRevB, hn]

theorem digitsToNat_reverse (l : List Nat) :
    digitsToNat l.reverse = ofDigitsRev l := by
  induction l with
  | nil => rfl
  | cons d ds ih =>
      have ih2 : digitsToNat ds.reverse = ofDigitsRev ds := ih
      simp only [List.reverse_cons, digitsToNat, List.foldl_append, List.foldl]
      rw [show List.foldl (fun a d => a * 10 + d) 0 ds.reverse =
        digitsToNat ds.reverse from rfl, ih2]
      rw [show ofDigitsRev (d :: ds) = d + 10 * ofDigitsRev ds from rfl]
      omega

theorem mem_natDecimal_bounds (n : Nat) :
    ∀ c ∈ natDecimal n, 48 ≤ c ∧ c ≤ 57 := by
  intro c hc
  unfold natDecimal at hc
  by_cases hz : n = 0
  · simp [hz] at hc
    omega
  · simp only [hz, if_neg, not_false_iff, List.mem_reverse, List.mem_map] at hc
    rcases hc with ⟨d, hd, hdc⟩
    have := natDigitsRevB_lt_ten n n d hd
    omega

theorem natDecimal_ne_nil (n : Nat) : natDecimal n ≠ [] := by
  unfold natDecimal
  by_cases hz : n = 0
  · simp [hz]
  · simp only [hz, if_neg, not_false_iff]
    intro hc
    have h1 : ((natDigitsRevB n n).map (· + 48)) = [] := by
      have := congrArg List.reverse hc
      simpa using this
    have h2 : natDigitsRevB n n = [] := List.map_eq_nil_iff.mp h1
    exact natDigitsRevB_ne_nil hz hz h2

theorem natDecimal_head (n : Nat) :
    ∃ c cs, natDecimal n = c :: cs ∧ 48 ≤ c ∧ c ≤ 57 := by
  cases hl : natDecimal n with
  | nil => exact absurd hl (natDecimal_ne_nil n)
  | cons c cs =>
      have hmem : c ∈ natDecimal n := hl ▸ List.mem_cons_self _ _
      exact ⟨c, cs, rfl, (mem_natDecimal_bounds n c hmem).1,
        (mem_natDecimal_bounds n c hmem).2⟩

theorem parseDigits_natDecimal (n : Nat) :
    parseDigits (natDecimal n) = some n := by
  unfold parseDigits
  have hne : ¬((natDecimal n).isEmpty = true) := by
    cases hl : natDecimal n with
    | nil => exact absurd hl (natDecimal_ne_nil n)
    | cons c cs => simp
  have hall : (natDecimal n).all isDigitByte = true := by
    rw [List.all_eq_true]
    intro c hc
    have := mem_natDecimal_bounds n c hc
    simp only [isDigitByte, Bool.and_eq_true, decide_eq_true_eq]
    omega
  rw [if_neg hne, if_pos hall]
  refine congrArg some ?_
  unfold natDecimal
  by_cases hz : n = 0
  · simp [hz, digitsToNat]
  · simp only [hz, if_neg, not_false_iff]
    rw [List.map_reverse, List.map_map]
    have hid : ∀ l : List Nat,
        l.map ((fun c => c - 48) ∘ (· + 48)) = l := by
      intro l
      induction l with
      | nil => rfl
      | cons a t ih => simp [Function.comp, ih]
    rw [hid, digitsToNat_reverse]
    exact ofDigitsRev_natDigitsRevB n n le_rfl

theorem strtollFull_sprintfLL (v : Int) : strtollFull (sprintfLL v) = some v := by
  unfold sprintfLL
  by_cases hv : v < 0
  · rw [if_pos hv]
    simp only [strtollFull]
    rw [if_pos trivial, parseDigits_natDecimal]
    simp [abs_of_neg hv]
  · rw [if_neg hv]
    rcases natDecimal_head v.toNat with ⟨c, cs, hcs, hc1, hc2⟩
    rw [hcs]
    have hc45 : ¬(c = 45) := by omega
    have hc43 : ¬(c = 43) := by omega
    simp only [strtollFull]
    rw [if_neg hc45, if_neg hc43, ← hcs, parseDigits_natDecimal]
    simp
    omega

/-! ## Two's-complement byte round trips -/

theorem leBytes_one (v : Int) : leBytes v 1 = [(v % 256).toNat % 256] := by
  have hr : List.range 1 = [0] := rfl
  simp [leBytes, hr]

theorem leBytes_two (v : Int) :
    leBytes v 2 = [(v % 65536).toNat % 256, (v % 65536).toNat / 256 % 256] := by
  have hr : List.range 2 = [0, 1] := rfl
  simp [leBytes, hr]

theorem leBytes_four (v : Int) :
    leBytes v 4 = [(v % 4294967296).toNat % 256,
      (v % 4294967296).toNat / 256 % 256,
      (v % 4294967296).toNat / 65536 % 256,
      (v % 4294967296).toNat / 16777216 % 256] := by
  have hr : List.range 4 = [0, 1, 2, 3] := rfl
  simp [leBytes, hr]

theorem intenc_roundtrip1 (v : Int) (h1 : -(2 ^ 7) ≤ v) (h2 : v ≤ 2 ^ 7 - 1) :
    signExtend (leVal (leBytes v 1)) 1 = v := by
  rw [leBytes_one]
  simp only [leVal, signExtend]
  norm_num
  split <;> omega

theorem intenc_roundtrip2 (v : Int) (h1 : -(2 ^ 15) ≤ v) (h2 : v ≤ 2 ^ 15 - 1) :
    signExtend (leVal (leBytes v 2)) 2 = v := by
  rw [leBytes_two]
  simp only [leVal, signExtend]
  norm_num
  split <;> omega

theorem intenc_roundtrip4 (v : Int) (h1 : -((2 : Int) ^ 31) ≤ v)
    (h2 : v ≤ 2 ^ 31 - 1) :
    signExtend (leVal (leBytes v 4)) 4 = v := by
  rw [leBytes_four]
  simp only [leVal, signExtend]
  norm_num
  split <;> omega

theorem natDecimal_length_le_ten {n : Nat} (h : n < 10 ^ 10) :
    (natDecimal n).length ≤ 10 := by
  unfold natDecimal
  by_cases hz : n = 0
  · simp [hz]
  · simp only [hz, if_neg, not_false_iff, List.length_reverse, List.length_map]
    exact natDigitsRevB_length_le n n 10 h

theorem sprintfLL_length_le (v : Int) (h1 : -((2 : Int) ^ 31) ≤ v)
    (h2 : v ≤ 2 ^ 31 - 1) : (sprintfLL v).length ≤ 11 := by
  unfold sprintfLL
  by_cases hv : v < 0
  · rw [if_pos hv]
    simp only [List.length_cons]
    have hb : v.natAbs < 10 ^ 10 := by
      have : (10 : Nat) ^ 10 = 10000000000 := by norm_num
      rw [this]
      omega
    have := natDecimal_length_le_ten hb
    omega
  · rw [if_neg hv]
    have hb : v.toNat < 10 ^ 10 := by
      have : (10 : Nat) ^ 10 = 10000000000 := by norm_num
      rw [this]
      omega
    have := natDecimal_length_le_ten hb
    omega

theorem rdbTryIntegerEncoding_sprintfLL (v : Int)
    (h1 : -((2 : Int) ^ 31) ≤ v) (h2 : v ≤ 2 ^ 31 - 1) :
    rdbTryIntegerEncoding (sprintfLL v) =
      some (if -(2 ^ 7) ≤ v ∧ v ≤ 2 ^ 7 - 1 then 192 :: leBytes v 1
        else if -(2 ^ 15) ≤ v ∧ v ≤ 2 ^ 15 - 1 then 193 :: leBytes v 2
        else 194 :: leBytes v 4) := by
  unfold rdbTryIntegerEncoding
  rw [strtollFull_sprintfLL]
  dsimp only
  rw [if_neg (fun hc => hc rfl)]
  by_cases hA : -(2 ^ 7) ≤ v ∧ v ≤ 2 ^ 7 - 1
  · rw [if_pos hA, if_pos hA]
  · rw [if_neg hA, if_neg hA]
    by_cases hB : -(2 ^ 15) ≤ v ∧ v ≤ 2 ^ 15 - 1
    · rw [if_pos hB, if_pos hB]
    · rw [if_neg hB, if_neg hB, if_pos ⟨h1, h2⟩]

/-! ## Claim theorems -/

/-- C1: for every database, a key with an entry in the expires dict also
has an entry in the main dict; `deleteKey` removes both entries, and
every modelled command (`applyOp`, covering the string, list, hash,
expiry, blocking and cron operations) preserves the invariant `dbInv`. -/
theorem C1_expiry_invariant :
    (∀ db k, dictFind (deleteKey db k).1.dict k = none ∧
      dictFind (deleteKey db k).1.expires k = none) ∧
    (∀ (now : Int) (op : DbOp) (db : RedisDb),
      dbInv db → dbInv (applyOp now op db)) := by
  constructor
  · intro db k
    refine ⟨dictFind_remove_self db.dict k, ?_⟩
    show dictFind
      (if db.expires.isEmpty then db.expires else dictRemove db.expires k) k
      = none
    by_cases he : db.expires.isEmpty
    · rw [if_pos he, List.isEmpty_iff.mp he]
      rfl
    · rw [if_neg he]
      exact dictFind_remove_self db.expires k
  · intro now op db h
    cases op with
    | opGet k => exact dbInv_getCommand now db k h
    | opSet k v => exact dbInv_setCommand db k v h
    | opSetnx k v => exact dbInv_setnxCommand db k v h
    | opGetset k v => exact dbInv_getsetCommand now db k v h
    | opDel ks => exact dbInv_delCommand db ks h
    | opExpire k s => exact dbInv_expireGenericCommand now db k s h
    | opExpireat k t => exact dbInv_expireGenericCommand now db k (t - now) h
    | opTtl k => exact h
    | opLpush k v => exact dbInv_pushGenericCommand true db k v h
    | opRpush k v => exact dbInv_pushGenericCommand false db k v h
    | opLpop k => exact dbInv_popGenericCommand true db k h
    | opRpop k => exact dbInv_popGenericCommand false db k h
    | opLlen k => exact dbInv_llenCommand now db k h
    | opHset me mv k f v => exact dbInv_hsetCommand me mv db k f v h
    | opHget k f => exact dbInv_hgetCommand now db k f h
    | opBlock k cid => exact dbInv_blockForKey db k cid h
    | opFlushdb => exact dbInv_flushdb db
    | opCron oracles => exact dbInv_activeExpireCycle now db oracles h

/-- Witness for C1 at a concrete database and operation. -/
theorem C1_expiry_invariant_witness :
    dbInv (⟨[("k", RVal.rstr "v")], [("k", 9)], []⟩ : RedisDb) ∧
    dbInv (applyOp 0 (DbOp.opSet "j" "w")
      ⟨[("k", RVal.rstr "v")], [("k", 9)], []⟩) :=
  ⟨by decide, C1_expiry_invariant.2 0 (DbOp.opSet "j" "w") _ (by decide)⟩

/-- Helper: the database produced by a successful EXPIREAT on a key
with no previous expiry. -/
theorem expireatCommand_success (db : RedisDb) (k : Key) (v : RVal)
    (now0 t : Int) (hv : dictFind db.dict k = some v)
    (hnx : dictFind db.expires k = none) (hle : now0 ≤ t) :
    expireatCommand now0 db k t =
      ({ db with expires := (k, t) :: db.expires }, [Reply.integer 1]) := by
  have hseconds : ¬(t - now0 < 0) := by omega
  have hadd : dictAdd db.expires k (now0 + (t - now0)) =
      some ((k, now0 + (t - now0)) :: db.expires) := by
    unfold dictAdd
    rw [hnx]
    rfl
  have htt : now0 + (t - now0) = t := by ring
  have hset : setExpire db k (now0 + (t - now0)) =
      ({ db with expires := (k, t) :: db.expires }, true) := by
    unfold setExpire
    rw [hadd]
    dsimp only
    rw [htt]
  unfold expireatCommand expireGenericCommand
  rw [hv]
  dsimp only
  rw [if_neg hseconds, hset]
  rfl

/-- C2 (amended): after `EXPIREAT k t` succeeds (the key exists and had
no previous expiry), `TTL k` at any time `t1 < t` replies exactly the
integer `t - t1`; at every time `t1 > t` (strictly later than the
deadline) the key is absent — a read lookup reports absence and TTL
replies -1.  At `t1 = t` exactly, the key is still present and TTL
replies 0 (the source evicts only when `now > when`). -/
theorem C2_expireat_ttl (db : RedisDb) (k : Key) (v : RVal) (now0 t : Int)
    (hv : dictFind db.dict k = some v) (hnx : dictFind db.expires k = none)
    (h0 : 0 ≤ now0) (hle : now0 ≤ t) :
    (expireatCommand now0 db k t).2 = [Reply.integer 1] ∧
    (∀ t1, t1 < t →
      ttlCommand t1 (expireatCommand now0 db k t).1 k =
        [Reply.integer (t - t1)]) ∧
    (∀ t1, t < t1 →
      (lookupKeyRead t1 (expireatCommand now0 db k t).1 k).2 = none ∧
      ttlCommand t1 (expireatCommand now0 db k t).1 k =
        [Reply.integer (-1)]) ∧
    ttlCommand t (expireatCommand now0 db k t).1 k = [Reply.integer 0] ∧
    (lookupKeyRead t (expireatCommand now0 db k t).1 k).2 = some v := by
  have hres := expireatCommand_success db k v now0 t hv hnx hle
  have hfind : dictFind ((k, t) :: db.expires) k = some t := by
    simp [dictFind]
  have httl : ∀ t1 : Int,
      ttlCommand t1 (expireatCommand now0 db k t).1 k =
        [Reply.integer (if t - t1 < 0 then -1 else t - t1)] := by
    intro t1
    rw [hres]
    unfold ttlCommand getExpire
    dsimp only
    rw [hfind]
    dsimp only
    rw [if_pos (by omega : (t : Int) ≠ -1)]
  refine ⟨by rw [hres], ?_, ?_, ?_, ?_⟩
  · intro t1 ht1
    rw [httl t1, if_neg (by omega)]
  · intro t1 ht1
    constructor
    · rw [hres]
      unfold lookupKeyRead expireIfNeeded
      dsimp only
      rw [hfind]
      dsimp only
      rw [if_neg (by omega : ¬ t1 ≤ t)]
      dsimp only [lookupKey]
      exact dictFind_remove_self _ k
    · rw [httl t1, if_pos (by omega)]
  · rw [httl t, if_neg (by omega), show t - t = (0 : Int) by ring]
  · rw [hres]
    unfold lookupKeyRead expireIfNeeded
    dsimp only
    rw [hfind]
    dsimp only
    rw [if_pos (le_refl t)]
    dsimp only [lookupKey]
    exact hv

/-- Witness for C2 at a concrete database: EXPIREAT k 9 issued at time 2,
TTL read at time 5. -/
theorem C2_expireat_ttl_witness :
    ttlCommand 5 (expireatCommand 2
      (⟨[("k", RVal.rstr "v")], [], []⟩ : RedisDb) "k" 9).1 "k" =
      [Reply.integer 4] :=
  (C2_expireat_ttl ⟨[("k", RVal.rstr "v")], [], []⟩ "k" (RVal.rstr "v") 2 9
    (by decide) (by decide) (by decide) (by decide)).2.1 5 (by decide)

/-- Counterexample for C2 as stated: with `EXPIREAT k 5` issued at time
3, at wall-clock time 5 (so `t1 = t`, within the claim's `t1 ≥ t`) the
key is still present and TTL replies 0, not -1. -/
theorem C2_expireat_boundary_counterexample :
    (expireatCommand 3 (⟨[("k", RVal.rstr "v")], [], []⟩ : RedisDb)
      "k" 5).2 = [Reply.integer 1] ∧
    (lookupKeyRead 5 (expireatCommand 3
      (⟨[("k", RVal.rstr "v")], [], []⟩ : RedisDb) "k" 5).1 "k").2 =
      some (RVal.rstr "v") ∧
    ttlCommand 5 (expireatCommand 3
      (⟨[("k", RVal.rstr "v")], [], []⟩ : RedisDb) "k" 5).1 "k" =
      [Reply.integer 0] := by
  decide

/-- C3 (amended): `lookupKeyRead` evicts the key exactly when its
recorded expiry is strictly in the past and then returns the value or
reports absence; `lookupKeyWrite` deletes a key as soon as it has any
expiry entry — with no staleness check at all — so a key whose expiry
has not yet passed is returned by the read lookup but reported absent
(and dropped) by the write lookup; only keys without an expiry are
returned by both. -/
theorem C3_lookup_semantics (now : Int) (db : RedisDb) (k : Key) :
    (dictFind db.expires k = none →
      lookupKeyRead now db k = (db, dictFind db.dict k) ∧
      lookupKeyWrite db k = (db, dictFind db.dict k)) ∧
    (∀ w, dictFind db.expires k = some w →
      (now ≤ w →
        lookupKeyRead now db k = (db, dictFind db.dict k)) ∧
      (w < now →
        (lookupKeyRead now db k).2 = none ∧
        dictFind (lookupKeyRead now db k).1.dict k = none ∧
        dictFind (lookupKeyRead now db k).1.expires k = none) ∧
      ((lookupKeyWrite db k).2 = none ∧
        dictFind (lookupKeyWrite db k).1.dict k = none ∧
        dictFind (lookupKeyWrite db k).1.expires k = none)) := by
  constructor
  · intro hnx
    constructor
    · unfold lookupKeyRead expireIfNeeded
      rw [hnx]
      rfl
    · unfold lookupKeyWrite deleteIfVolatile
      rw [hnx]
      rfl
  · intro w hw
    refine ⟨?_, ?_, ?_⟩
    · intro hnow
      unfold lookupKeyRead expireIfNeeded
      rw [hw]
      dsimp only
      rw [if_pos hnow]
      rfl
    · intro hnow
      unfold lookupKeyRead expireIfNeeded
      rw [hw]
      dsimp only
      rw [if_neg (by omega : ¬ now ≤ w)]
      exact ⟨dictFind_remove_self db.dict k, dictFind_remove_self db.dict k,
        dictFind_remove_self db.expires k⟩
    · unfold lookupKeyWrite deleteIfVolatile
      rw [hw]
      exact ⟨dictFind_remove_self db.dict k, dictFind_remove_self db.dict k,
        dictFind_remove_self db.expires k⟩

/-- Witness for C3 at a concrete database with an unexpired volatile
key. -/
theorem C3_lookup_semantics_witness :
    (lookupKeyRead 0 (⟨[("k", RVal.rstr "v")], [("k", 10)], []⟩ : RedisDb)
      "k" = (⟨[("k", RVal.rstr "v")], [("k", 10)], []⟩,
        dictFind [("k", RVal.rstr "v")] "k")) ∧
    (lookupKeyWrite (⟨[("k", RVal.rstr "v")], [("k", 10)], []⟩ : RedisDb)
      "k").2 = none :=
  ⟨((C3_lookup_semantics 0 ⟨[("k", RVal.rstr "v")], [("k", 10)], []⟩
      "k").2 10 (by decide)).1 (by decide),
   ((C3_lookup_semantics 0 ⟨[("k", RVal.rstr "v")], [("k", 10)], []⟩
      "k").2 10 (by decide)).2.2.1⟩

/-- Counterexample for C3 as stated: at time 0, key `k` holds `v` with
expiry 10 (not yet passed), yet `lookupKeyWrite` reports absence while
`lookupKeyRead` still returns the stored value. -/
theorem C3_lookupKeyWrite_counterexample :
    (lookupKeyRead 0 (⟨[("k", RVal.rstr "v")], [("k", 10)], []⟩ : RedisDb)
      "k").2 = some (RVal.rstr "v") ∧
    (lookupKeyWrite (⟨[("k", RVal.rstr "v")], [("k", 10)], []⟩ : RedisDb)
      "k").2 ≠ some (RVal.rstr "v") := by
  decide

/-- C10: a SET always succeeds, replies +OK and removes any expiry on
the key (the key is gone from the expires dict and TTL replies -1
afterwards); a GETSET that does not abort on a type error does the
same. -/
theorem C10_set_getset_clear_expiry (now : Int) (db : RedisDb) (k : Key)
    (v : String) :
    ((setCommand db k v).2 = [Reply.status "OK"] ∧
     dictFind (setCommand db k v).1.expires k = none ∧
     ttlCommand now (setCommand db k v).1 k = [Reply.integer (-1)]) ∧
    ((getGenericCommand now db k).2.2 = true →
     dictFind (getsetCommand now db k v).1.expires k = none ∧
     ttlCommand now (getsetCommand now db k v).1 k = [Reply.integer (-1)]) := by
  have httl : ∀ db2 : RedisDb, dictFind db2.expires k = none →
      ttlCommand now db2 k = [Reply.integer (-1)] := by
    intro db2 hnx
    unfold ttlCommand getExpire
    rw [hnx]
    dsimp only
    rw [if_neg (by simp)]
  constructor
  · by_cases hk : (dictFind db.dict k).isSome
    · have h1 : setCommand db k v =
          ((removeExpire
            { db with dict := (dictReplace db.dict k (RVal.rstr v)).1 } k).1,
           [Reply.status "OK"]) := by
        simp [setCommand, setGenericCommand, dictAdd, hk]
      rw [h1]
      exact ⟨rfl, dictFind_remove_self _ k, httl _ (dictFind_remove_self _ k)⟩
    · have h1 : setCommand db k v =
          ((removeExpire
            { db with dict := (k, RVal.rstr v) :: db.dict } k).1,
           [Reply.status "OK"]) := by
        simp [setCommand, setGenericCommand, dictAdd, hk]
      rw [h1]
      exact ⟨rfl, dictFind_remove_self _ k, httl _ (dictFind_remove_self _ k)⟩
  · intro hok
    have hget : dictFind (getsetCommand now db k v).1.expires k = none := by
      unfold getsetCommand
      cases hg : getGenericCommand now db k with
      | mk db1 rs =>
          cases rs with
          | mk rlist ok =>
              cases ok with
              | false =>
                  rw [hg] at hok
                  simp at hok
              | true =>
                  dsimp only
                  exact dictFind_remove_self _ k
    exact ⟨hget, httl _ hget⟩

/-- Witness for C10: GETSET on a present string key at a concrete
database with a pending expiry. -/
theorem C10_set_getset_clear_expiry_witness :
    dictFind (getsetCommand 0
      (⟨[("k", RVal.rstr "old")], [("k", 42)], []⟩ : RedisDb)
      "k" "new").1.expires "k" = none :=
  ((C10_set_getset_clear_expiry 0
    ⟨[("k", RVal.rstr "old")], [("k", 42)], []⟩ "k" "new").2
    (by decide)).1

/-- C7: an LPUSH or RPUSH to a key on which at least one client blocks
does not store the element, whatever blocked state the key is in —
absent, present as an emptied list (as `popGenericCommand` leaves
behind), or volatile: the element is handed to the oldest waiter as the
two-element multi-bulk `[key, element]`, the pusher is answered :1, the
waiter is removed from every waiter list, and afterwards the key is
still absent or an empty list, so LLEN replies 0. -/
theorem C7_push_delivers_to_blocked (wh : Bool) (now : Int) (db : RedisDb)
    (k : Key) (v : String) (r : Nat) (rest : List Nat)
    (hb : dictFind db.blockingkeys k = some (r :: rest))
    (hm : dictFind db.dict k = none ∨
      dictFind db.dict k = some (RVal.rlist [])) :
    (pushGenericCommand wh db k v).2.2 =
      some (r, [Reply.mbheader 2, Reply.bulk k, Reply.bulk v]) ∧
    (pushGenericCommand wh db k v).2.1 = [Reply.integer 1] ∧
    (dictFind (pushGenericCommand wh db k v).1.dict k = none ∨
      dictFind (pushGenericCommand wh db k v).1.dict k =
        some (RVal.rlist [])) ∧
    (llenCommand now (pushGenericCommand wh db k v).1 k).2 =
      [Reply.integer 0] ∧
    (∀ l, dictFind (pushGenericCommand wh db k v).1.blockingkeys k = some l →
      r ∉ l) := by
  cases he : dictFind db.expires k with
  | some w =>
      have h1 : lookupKeyWrite db k =
          (⟨dictRemove db.dict k, dictRemove db.expires k,
            db.blockingkeys⟩, none) := by
        unfold lookupKeyWrite deleteIfVolatile lookupKey
        rw [he]
        dsimp only
        rw [dictFind_remove_self]
      have h2 : handleClientsWaitingListPush
          ⟨dictRemove db.dict k, dictRemove db.expires k,
            db.blockingkeys⟩ k v =
          (unblockClient ⟨dictRemove db.dict k, dictRemove db.expires k,
            db.blockingkeys⟩ r,
           some (r, [Reply.mbheader 2, Reply.bulk k, Reply.bulk v])) := by
        unfold handleClientsWaitingListPush
        rw [show dictFind (⟨dictRemove db.dict k, dictRemove db.expires k,
          db.blockingkeys⟩ : RedisDb).blockingkeys k = some (r :: rest)
          from hb]
      have hp : pushGenericCommand wh db k v =
          (unblockClient ⟨dictRemove db.dict k, dictRemove db.expires k,
            db.blockingkeys⟩ r, [Reply.integer 1],
           some (r, [Reply.mbheader 2, Reply.bulk k, Reply.bulk v])) := by
        unfold pushGenericCommand
        rw [h1]
        dsimp only
        rw [h2]
      rw [hp]
      refine ⟨rfl, rfl, Or.inl (dictFind_remove_self db.dict k), ?_, ?_⟩
      · unfold llenCommand lookupKeyRead expireIfNeeded lookupKey
        dsimp only
        rw [show dictFind (unblockClient ⟨dictRemove db.dict k,
          dictRemove db.expires k, db.blockingkeys⟩ r).expires k = none from
          dictFind_remove_self db.expires k]
        dsimp only
        rw [show dictFind (unblockClient ⟨dictRemove db.dict k,
          dictRemove db.expires k, db.blockingkeys⟩ r).dict k = none from
          dictFind_remove_self db.dict k]
      · intro l hl
        exact unblockClient_not_mem _ r (k, l) (dictFind_eq_some_mem hl)
  | none =>
      have h1 : lookupKeyWrite db k = (db, dictFind db.dict k) := by
        unfold lookupKeyWrite deleteIfVolatile lookupKey
        rw [he]
      have h2 : handleClientsWaitingListPush db k v =
          (unblockClient db r,
           some (r, [Reply.mbheader 2, Reply.bulk k, Reply.bulk v])) := by
        unfold handleClientsWaitingListPush
        rw [hb]
      rcases hm with hnone | hempty
      · have hp : pushGenericCommand wh db k v =
            (unblockClient db r, [Reply.integer 1],
             some (r, [Reply.mbheader 2, Reply.bulk k, Reply.bulk v])) := by
          unfold pushGenericCommand
          rw [h1, hnone]
          dsimp only
          rw [h2]
        rw [hp]
        refine ⟨rfl, rfl, Or.inl hnone, ?_, ?_⟩
        · unfold llenCommand lookupKeyRead expireIfNeeded lookupKey
          dsimp only
          rw [show dictFind (unblockClient db r).expires k = none from he]
          dsimp only
          rw [show dictFind (unblockClient db r).dict k = none from hnone]
        · intro l hl
          exact unblockClient_not_mem _ r (k, l) (dictFind_eq_some_mem hl)
      · have hp : pushGenericCommand wh db k v =
            (unblockClient db r, [Reply.integer 1],
             some (r, [Reply.mbheader 2, Reply.bulk k, Reply.bulk v])) := by
          unfold pushGenericCommand
          rw [h1, hempty]
          dsimp only
          rw [h2]
        rw [hp]
        refine ⟨rfl, rfl, Or.inr hempty, ?_, ?_⟩
        · unfold llenCommand lookupKeyRead expireIfNeeded lookupKey
          dsimp only
          rw [show dictFind (unblockClient db r).expires k = none from he]
          dsimp only
          rw [show dictFind (unblockClient db r).dict k =
            some (RVal.rlist []) from hempty]
          rfl
        · intro l hl
          exact unblockClient_not_mem _ r (k, l) (dictFind_eq_some_mem hl)

/-- Witness for C7 at the state the eviction-free pop path leaves
behind: client 7 blocked on `k` while `k` still holds an emptied list
object. -/
theorem C7_push_delivers_to_blocked_witness :
    (pushGenericCommand false
      (⟨[("k", RVal.rlist [])], [], [("k", [7])]⟩ : RedisDb)
      "k" "hello").2.2 =
      some (7, [Reply.mbheader 2, Reply.bulk "k", Reply.bulk "hello"]) ∧
    (llenCommand 0 (pushGenericCommand false
      (⟨[("k", RVal.rlist [])], [], [("k", [7])]⟩ : RedisDb)
      "k" "hello").1 "k").2 = [Reply.integer 0] := by
  refine ⟨?_, ?_⟩
  · exact (C7_push_delivers_to_blocked false 0
      ⟨[("k", RVal.rlist [])], [], [("k", [7])]⟩ "k" "hello" 7 []
      (by decide) (Or.inr (by decide))).1
  · exact (C7_push_delivers_to_blocked false 0
      ⟨[("k", RVal.rlist [])], [], [("k", [7])]⟩ "k" "hello" 7 []
      (by decide) (Or.inr (by decide))).2.2.2.1

/-- Shape of `hsetCommand` on a hashtable-encoded hash: plain
`dictReplace`, no encoding change. -/
theorem hsetOnHash_ht (me mv : Nat) (ents : List (Key × String))
    (f v : RObjStr) :
    hsetOnHash me mv ⟨HashEnc.ht, ents⟩ f v =
      (⟨HashEnc.ht, (dictReplace ents (robjBytes f) (robjBytes v)).1⟩,
       !(dictReplace ents (robjBytes f) (robjBytes v)).2) := by
  have hcnd : ¬((({ enc := HashEnc.ht, entries := ents } : HashObj).enc
      = HashEnc.zipmap) ∧
      (rawLongerThan mv f = true ∨ rawLongerThan mv v = true)) :=
    fun hc => HashEnc.noConfusion hc.1
  have h2 : ¬(({ enc := HashEnc.ht, entries := ents } : HashObj).enc
      = HashEnc.zipmap) := fun hc => HashEnc.noConfusion hc
  unfold hsetOnHash
  rw [if_neg hcnd, if_neg h2]

/-- Shape of `hsetCommand` on a zipmap hash when a raw argument exceeds
the value watermark: convert first, then insert into the hashtable. -/
theorem hsetOnHash_zip_conv (me mv : Nat) (ents : List (Key × String))
    (f v : RObjStr)
    (hr : rawLongerThan mv f = true ∨ rawLongerThan mv v = true) :
    hsetOnHash me mv ⟨HashEnc.zipmap, ents⟩ f v =
      (⟨HashEnc.ht, (dictReplace ents (robjBytes f) (robjBytes v)).1⟩,
       !(dictReplace ents (robjBytes f) (robjBytes v)).2) := by
  have hcnd : (({ enc := HashEnc.zipmap, entries := ents } : HashObj).enc
      = HashEnc.zipmap) ∧
      (rawLongerThan mv f = true ∨ rawLongerThan mv v = true) :=
    And.intro rfl hr
  have h2 : ¬((convertToRealHash
      { enc := HashEnc.zipmap, entries := ents }).enc = HashEnc.zipmap) :=
    fun hc => HashEnc.noConfusion hc
  unfold hsetOnHash
  rw [if_pos hcnd, if_neg h2]
  rfl

/-- Shape of `hsetCommand` on a zipmap hash when neither argument
triggers the size check: `zipmapSet`, then convert exactly when a
fresh field pushed the entry count over the watermark. -/
theorem hsetOnHash_zip_noconv (me mv : Nat) (ents : List (Key × String))
    (f v : RObjStr) (hf : rawLongerThan mv f = false)
    (hv : rawLongerThan mv v = false) :
    hsetOnHash me mv ⟨HashEnc.zipmap, ents⟩ f v =
      (if (zipmapSet ents (robjBytes f) (robjBytes v)).2 = false ∧
          me < (zipmapSet ents (robjBytes f) (robjBytes v)).1.length then
        (⟨HashEnc.ht, (zipmapSet ents (robjBytes f) (robjBytes v)).1⟩,
         (zipmapSet ents (robjBytes f) (robjBytes v)).2)
      else
        (⟨HashEnc.zipmap, (zipmapSet ents (robjBytes f) (robjBytes v)).1⟩,
         (zipmapSet ents (robjBytes f) (robjBytes v)).2)) := by
  have hcnd : ¬((({ enc := HashEnc.zipmap, entries := ents } : HashObj).enc
      = HashEnc.zipmap) ∧
      (rawLongerThan mv f = true ∨ rawLongerThan mv v = true)) := by
    intro hc
    rcases hc.2 with h | h
    · rw [hf] at h; cases h
    · rw [hv] at h; cases h
  have h2 : (({ enc := HashEnc.zipmap, entries := ents } : HashObj).enc
      = HashEnc.zipmap) := rfl
  unfold hsetOnHash
  rw [if_neg hcnd, if_pos h2]
  rfl

/-- C4 (amended): a zipmap-encoded hash stays zipmap while the update
keeps every decoded field/value within `hash_max_zipmap_value` bytes
and the entry count within `hash_max_zipmap_entries`; an HSET whose
raw-encoded field or value exceeds the size limit, or that grows the
entry count beyond the limit, converts the hash to the hashtable
encoding; the conversion and every HSET preserve the field→value
mapping read back by HGET; the hashtable encoding is never converted
back by HSET or HDEL.  (An integer-encoded argument is exempt from the
size check — see the counterexample.) -/
theorem C4_hash_zipmap (me mv : Nat) (o : HashObj) (f v g : RObjStr) :
    (o.enc = HashEnc.zipmap → robjLen f ≤ mv → robjLen v ≤ mv →
      (zipmapSet o.entries (robjBytes f) (robjBytes v)).1.length ≤ me →
      (hsetOnHash me mv o f v).1.enc = HashEnc.zipmap) ∧
    (o.enc = HashEnc.zipmap →
      (rawLongerThan mv f = true ∨ rawLongerThan mv v = true) →
      (hsetOnHash me mv o f v).1.enc = HashEnc.ht) ∧
    (o.enc = HashEnc.zipmap →
      dictFind o.entries (robjBytes f) = none → me ≤ o.entries.length →
      (hsetOnHash me mv o f v).1.enc = HashEnc.ht) ∧
    (hgetOnHash (hsetOnHash me mv o f v).1 g =
      (if robjBytes f = robjBytes g then some (robjBytes v)
       else hgetOnHash o g)) ∧
    (∀ h : HashObj, hgetOnHash (convertToRealHash h) g = hgetOnHash h g) ∧
    (o.enc = HashEnc.ht → (hsetOnHash me mv o f v).1.enc = HashEnc.ht) ∧
    ((hdelOnHash o g).1.enc = o.enc) := by
  obtain ⟨enc, ents⟩ := o
  refine ⟨?_, ?_, ?_, ?_, fun h => rfl, ?_, rfl⟩
  · intro hz hf hv hlen
    cases enc with
    | ht => cases hz
    | zipmap =>
        rw [hsetOnHash_zip_noconv me mv ents f v
          (rawLongerThan_false_of_le hf) (rawLongerThan_false_of_le hv)]
        rw [if_neg (by
          intro hc
          have := hc.2
          simp only at hlen
          omega)]
  · intro hz hr
    cases enc with
    | ht => cases hz
    | zipmap => rw [hsetOnHash_zip_conv me mv ents f v hr]
  · intro hz hfresh hcap
    cases enc with
    | ht => cases hz
    | zipmap =>
        by_cases hr : rawLongerThan mv f = true ∨ rawLongerThan mv v = true
        · rw [hsetOnHash_zip_conv me mv ents f v hr]
        · have hf : rawLongerThan mv f = false := by
            cases hx : rawLongerThan mv f
            · rfl
            · exact absurd (Or.inl hx) hr
          have hv : rawLongerThan mv v = false := by
            cases hx : rawLongerThan mv v
            · rfl
            · exact absurd (Or.inr hx) hr
          rw [hsetOnHash_zip_noconv me mv ents f v hf hv]
          rw [if_pos (by
            constructor
            · rw [zipmapSet_update]
              simp only at hfresh
              rw [hfresh]
              rfl
            · rw [zipmapSet_length]
              simp only at hfresh hcap
              rw [hfresh]
              simp
              omega)]
  · cases enc with
    | ht =>
        rw [hsetOnHash_ht]
        exact dictFind_dictReplace ents (robjBytes f) (robjBytes v)
          (robjBytes g)
    | zipmap =>
        by_cases hr : rawLongerThan mv f = true ∨ rawLongerThan mv v = true
        · rw [hsetOnHash_zip_conv me mv ents f v hr]
          exact dictFind_dictReplace ents (robjBytes f) (robjBytes v)
            (robjBytes g)
        · have hf : rawLongerThan mv f = false := by
            cases hx : rawLongerThan mv f
            · rfl
            · exact absurd (Or.inl hx) hr
          have hv : rawLongerThan mv v = false := by
            cases hx : rawLongerThan mv v
            · rfl
            · exact absurd (Or.inr hx) hr
          rw [hsetOnHash_zip_noconv me mv ents f v hf hv]
          split
          · exact dictFind_zipmapSet ents (robjBytes f) (robjBytes v)
              (robjBytes g)
          · exact dictFind_zipmapSet ents (robjBytes f) (robjBytes v)
              (robjBytes g)
  · intro hh
    cases enc with
    | zipmap => cases hh
    | ht => rw [hsetOnHash_ht]

/-- Witness for C4 at concrete limits: within the limits a fresh HSET
stays zipmap and HGET reads the new pair back. -/
theorem C4_hash_zipmap_witness :
    (hsetOnHash 3 10 createHashObject (RObjStr.raw "f")
      (RObjStr.raw "val")).1.enc = HashEnc.zipmap ∧
    hgetOnHash (hsetOnHash 3 10 createHashObject (RObjStr.raw "f")
      (RObjStr.raw "val")).1 (RObjStr.raw "f") = some "val" := by
  constructor
  · exact (C4_hash_zipmap 3 10 createHashObject (RObjStr.raw "f")
      (RObjStr.raw "val") (RObjStr.raw "f")).1 (by decide) (by decide)
      (by decide) (by decide)
  · have h4 := (C4_hash_zipmap 3 10 createHashObject (RObjStr.raw "f")
      (RObjStr.raw "val") (RObjStr.raw "f")).2.2.2.1
    rw [h4]
    decide

/-- Counterexample for C4 as stated: with `hash_max_zipmap_value = 2`,
an HSET whose value is the integer-encoded string "12345" (5 decoded
bytes, above the limit) does not convert the hash: the size check is
skipped for non-raw encodings and the hash stays zipmap. -/
theorem C4_hset_intenc_counterexample :
    2 < (robjBytes (RObjStr.intenc 12345)).length ∧
    (hsetOnHash 10 2 createHashObject (RObjStr.raw "f")
      (RObjStr.intenc 12345)).1.enc = HashEnc.zipmap := by
  decide

/-- C5: for every string that is the exact minimal decimal form of an
integer fitting in i8/i16/i32, the snapshot writer emits it through the
corresponding special integer encoding (first byte `0xC0|selector`,
never a plain length header), and loading the emitted bytes yields the
original string byte-for-byte, leaving trailing input untouched. -/
theorem C5_rdb_integer_roundtrip (v : Int) (extra : List Nat)
    (h1 : -((2 : Int) ^ 31) ≤ v) (h2 : v ≤ 2 ^ 31 - 1) :
    ((rdbSaveRawString (sprintfLL v)).head? =
      some (if -(2 ^ 7) ≤ v ∧ v ≤ 2 ^ 7 - 1 then 192
        else if -(2 ^ 15) ≤ v ∧ v ≤ 2 ^ 15 - 1 then 193 else 194)) ∧
    rdbLoadStringObject (rdbSaveRawString (sprintfLL v) ++ extra) =
      some (sprintfLL v, extra) := by
  have hlen := sprintfLL_length_le v h1 h2
  have henc := rdbTryIntegerEncoding_sprintfLL v h1 h2
  by_cases hA : -(2 ^ 7) ≤ v ∧ v ≤ 2 ^ 7 - 1
  · have hsave : rdbSaveRawString (sprintfLL v) = 192 :: leBytes v 1 := by
      unfold rdbSaveRawString
      rw [if_pos hlen, henc, if_pos hA]
    constructor
    · rw [hsave, if_pos hA]
      rfl
    · rw [hsave, leBytes_one]
      simp only [List.cons_append, List.nil_append]
      unfold rdbLoadStringObject
      dsimp only
      rw [if_pos (by norm_num : (192 : Nat) / 64 = 3)]
      rw [show (192 : Nat) % 64 = 0 from by norm_num]
      unfold rdbLoadIntegerObject
      rw [if_pos rfl]
      dsimp only
      have hrt := intenc_roundtrip1 v hA.1 hA.2
      rw [leBytes_one] at hrt
      simp only [leVal] at hrt ⊢
      rw [hrt]
  · by_cases hB : -(2 ^ 15) ≤ v ∧ v ≤ 2 ^ 15 - 1
    · have hsave : rdbSaveRawString (sprintfLL v) = 193 :: leBytes v 2 := by
        unfold rdbSaveRawString
        rw [if_pos hlen, henc, if_neg hA, if_pos hB]
      constructor
      · rw [hsave, if_neg hA, if_pos hB]
        rfl
      · rw [hsave, leBytes_two]
        simp only [List.cons_append, List.nil_append]
        unfold rdbLoadStringObject
        dsimp only
        rw [if_pos (by norm_num : (193 : Nat) / 64 = 3)]
        rw [show (193 : Nat) % 64 = 1 from by norm_num]
        unfold rdbLoadIntegerObject
        rw [if_neg (by norm_num : ¬(1 : Nat) = 0), if_pos rfl]
        dsimp only
        have hrt := intenc_roundtrip2 v hB.1 hB.2
        rw [leBytes_two] at hrt
        simp only [leVal] at hrt ⊢
        rw [hrt]
    · have hsave : rdbSaveRawString (sprintfLL v) = 194 :: leBytes v 4 := by
        unfold rdbSaveRawString
        rw [if_pos hlen, henc, if_neg hA, if_neg hB]
      constructor
      · rw [hsave, if_neg hA, if_neg hB]
        rfl
      · rw [hsave, leBytes_four]
        simp only [List.cons_append, List.nil_append]
        unfold rdbLoadStringObject
        dsimp only
        rw [if_pos (by norm_num : (194 : Nat) / 64 = 3)]
        rw [show (194 : Nat) % 64 = 2 from by norm_num]
        unfold rdbLoadIntegerObject
        rw [if_neg (by norm_num : ¬(2 : Nat) = 0),
          if_neg (by norm_num : ¬(2 : Nat) = 1), if_pos rfl]
        dsimp only
        have hrt := intenc_roundtrip4 v h1 h2
        rw [leBytes_four] at hrt
        simp only [leVal] at hrt ⊢
        rw [hrt]

/-- Witness for C5 at `v = 291` (an i16 value): selector byte 193 and a
clean round trip with trailing input. -/
theorem C5_rdb_integer_roundtrip_witness :
    ((rdbSaveRawString (sprintfLL 291)).head? = some 193) ∧
    rdbLoadStringObject (rdbSaveRawString (sprintfLL 291) ++ [99]) =
      some (sprintfLL 291, [99]) := by
  have h := C5_rdb_integer_roundtrip 291 [99] (by norm_num) (by norm_num)
  rcases h with ⟨ha, hb⟩
  refine ⟨?_, hb⟩
  rw [ha]
  norm_num

/-- C6 (amended): while a client has MULTI active, every command that
passes the dispatch checks (known name, correct arity) other than QUIT,
EXEC and DISCARD is appended to the transaction queue without touching
the database and is answered +QUEUED; EXEC then runs the queued
commands in queue order (`execQueue` is compositional over queue
concatenation, so the sub-replies appear in that order), replies the
multi-bulk header followed by each command's sub-reply, and clears the
transaction state.  QUIT itself is excluded: it tears the connection
down even inside MULTI — see the counterexample. -/
theorem C6_multi_exec (now : Int) (cl : MClient) (db : RedisDb)
    (name : String) (rest : List String)
    (hmulti : cl.multi = true)
    (hq : name ≠ "quit") (he : name ≠ "exec") (hd : name ≠ "discard")
    (arity : Int) (hcmd : lookupCommand name = some arity)
    (har : arityOk arity (name :: rest).length = true) :
    processCommand now cl db (name :: rest) =
      ({ cl with mstate := cl.mstate ++ [name :: rest] }, db,
       [Reply.status "QUEUED"]) ∧
    processCommand now cl db ["exec"] =
      ({ (execQueue now cl db cl.mstate).1 with
          multi := false, mstate := [] },
       (execQueue now cl db cl.mstate).2.1,
       Reply.mbheader (cl.mstate.length : Int) ::
         (execQueue now cl db cl.mstate).2.2) ∧
    (∀ (q1 q2 : List (List String)) (cl0 : MClient) (db0 : RedisDb),
      execQueue now cl0 db0 (q1 ++ q2) =
        ((execQueue now (execQueue now cl0 db0 q1).1
            (execQueue now cl0 db0 q1).2.1 q2).1,
         (execQueue now (execQueue now cl0 db0 q1).1
            (execQueue now cl0 db0 q1).2.1 q2).2.1,
         (execQueue now cl0 db0 q1).2.2 ++
           (execQueue now (execQueue now cl0 db0 q1).1
              (execQueue now cl0 db0 q1).2.1 q2).2.2)) := by
  refine ⟨?_, ?_, ?_⟩
  · unfold processCommand
    dsimp only
    rw [if_neg hq, hcmd]
    dsimp only
    rw [har, Bool.not_true]
    rw [if_neg (by simp : ¬(false = true))]
    rw [if_pos ⟨hmulti, he, hd⟩]
  · unfold processCommand
    dsimp only
    rw [if_neg (by decide : ¬("exec" = "quit"))]
    rw [show lookupCommand "exec" = some 1 from by decide]
    dsimp only
    rw [show arityOk 1 (["exec"] : List String).length = true from by decide,
      Bool.not_true]
    rw [if_neg (by simp : ¬(false = true))]
    rw [if_neg (by
      intro hc
      exact hc.2.1 rfl)]
    rw [if_pos (rfl : ("exec" : String) = "exec")]
    rw [hmulti, Bool.not_true]
    rw [if_neg (by simp : ¬(false = true))]
  · intro q1
    induction q1 with
    | nil =>
        intro q2 cl0 db0
        simp [execQueue]
    | cons a q1 ih =>
        intro q2 cl0 db0
        simp only [List.cons_append, execQueue]
        rw [show q1.append q2 = q1 ++ q2 from rfl, ih]
        simp [List.append_assoc]

/-- Witness for C6: a PING queued inside a transaction on a concrete
client. -/
theorem C6_multi_exec_witness :
    processCommand 0 ⟨true, [], false⟩ (⟨[], [], []⟩ : RedisDb) ["ping"] =
      (⟨true, [["ping"]], false⟩, (⟨[], [], []⟩ : RedisDb),
       [Reply.status "QUEUED"]) :=
  (C6_multi_exec 0 ⟨true, [], false⟩ ⟨[], [], []⟩ "ping" [] rfl
    (by decide) (by decide) (by decide) 1 (by decide) (by decide)).1

/-- Counterexample for C6 as stated: QUIT sent while MULTI is active is
not queued and not answered +QUEUED — it closes the connection. -/
theorem C6_quit_in_multi_counterexample :
    (processCommand 0 ⟨true, [], false⟩ (⟨[], [], []⟩ : RedisDb)
      ["quit"]).1.closed = true ∧
    (processCommand 0 ⟨true, [], false⟩ (⟨[], [], []⟩ : RedisDb)
      ["quit"]).2.2 ≠ [Reply.status "QUEUED"] ∧
    (processCommand 0 ⟨true, [], false⟩ (⟨[], [], []⟩ : RedisDb)
      ["quit"]).1.mstate = [] := by
  decide

/-! ## Active-expiry round lemmas -/

theorem expireLoop_preserves_none (now : Int) (oracle : List Nat)
    (num : Nat) :
    ∀ (db : RedisDb) (x : Key), dictFind db.dict x = none →
      dictFind db.expires x = none →
      dictFind (expireLoop now db oracle num).1.dict x = none ∧
      dictFind (expireLoop now db oracle num).1.expires x = none := by
  induction num generalizing oracle with
  | zero => intro db x hd he; exact ⟨hd, he⟩
  | succ n ih =>
      intro db x hd he
      unfold expireLoop
      cases hes : db.expires with
      | nil => exact ⟨hd, he⟩
      | cons e0 rest0 =>
          simp only
          split
          · refine ih _ _ x ?_ ?_
            · show dictFind (dictRemove db.dict _) x = none
              rw [dictFind_dictRemove]
              split
              · rfl
              · exact hd
            · show dictFind
                (if db.expires.isEmpty then db.expires
                 else dictRemove db.expires _) x = none
              rw [if_neg (by rw [hes]; simp)]
              rw [dictFind_dictRemove]
              split
              · rfl
              · exact he
          · exact ih _ db x hd he

theorem expireLoop_sampled_le (now : Int) (oracle : List Nat) (num : Nat) :
    ∀ db : RedisDb, (expireLoop now db oracle num).2.2.length ≤ num := by
  induction num generalizing oracle with
  | zero => intro db; simp [expireLoop]
  | succ n ih =>
      intro db
      unfold expireLoop
      cases hes : db.expires with
      | nil => simp
      | cons e0 rest0 =>
          simp only
          split
          · simpa using Nat.succ_le_succ (ih oracle.tail _)
          · simpa using Nat.succ_le_succ (ih oracle.tail db)

theorem expireLoop_expired_count (now : Int) (oracle : List Nat)
    (num : Nat) :
    ∀ db : RedisDb, (expireLoop now db oracle num).2.1 =
      ((expireLoop now db oracle num).2.2.filter
        (fun e => decide (now > e.2))).length := by
  induction num generalizing oracle with
  | zero => intro db; simp [expireLoop]
  | succ n ih =>
      intro db
      unfold expireLoop
      cases hes : db.expires with
      | nil => simp
      | cons e0 rest0 =>
          simp only
          split
          · rename_i hgt
            rw [ih]
            simp only [List.filter_cons]
            rw [if_pos (decide_eq_true hgt)]
            simp
          · rename_i hgt
            rw [ih]
            simp only [List.filter_cons]
            rw [if_neg (by simpa using hgt)]

theorem expireLoop_deletes_expired (now : Int) (oracle : List Nat)
    (num : Nat) :
    ∀ (db : RedisDb) (e : Key × Int),
      e ∈ (expireLoop now db oracle num).2.2 → now > e.2 →
      dictFind (expireLoop now db oracle num).1.dict e.1 = none ∧
      dictFind (expireLoop now db oracle num).1.expires e.1 = none := by
  induction num generalizing oracle with
  | zero =>
      intro db e he _
      simp [expireLoop] at he
  | succ n ih =>
      intro db e he hgt
      unfold expireLoop at he ⊢
      cases hes : db.expires with
      | nil =>
          rw [hes] at he
          simp at he
      | cons e0 rest0 =>
          rw [hes] at he
          simp only at he ⊢
          by_cases hg : now >
              ((e0 :: rest0).getD (oracle.headI % (e0 :: rest0).length) e0).2
          · rw [if_pos hg] at he ⊢
            simp only [List.mem_cons] at he
            rcases he with he1 | he2
            · rw [he1]
              refine expireLoop_preserves_none now oracle.tail n _ _ ?_ ?_
              · exact dictFind_remove_self _ _
              · show dictFind (if db.expires.isEmpty then db.expires
                    else dictRemove db.expires _) _ = none
                rw [if_neg (by rw [hes]; simp)]
                exact dictFind_remove_self _ _
            · exact ih oracle.tail _ e he2 hgt
          · rw [if_neg hg] at he ⊢
            simp only [List.mem_cons] at he
            rcases he with he1 | he2
            · rw [he1] at hgt
              exact absurd hgt hg
            · exact ih oracle.tail db e he2 hgt

/-- C8 (amended): each round of the per-database expiry cycle samples
at most 100 entries of the expires dict (the dict size when smaller),
deletes every sampled entry whose absolute expiry is strictly in the
past, counts exactly those deletions, and the cycle repeats the round
if and only if strictly more than 25 sampled entries expired — 25 being
the constant `REDIS_EXPIRELOOKUPS_PER_CRON/4`, not 25% of the actual
batch (they agree only when the batch is the full 100). -/
theorem C8_active_expiry (now : Int) (db : RedisDb) (oracle : List Nat)
    (orest : List (List Nat)) :
    (expireCycleRound now db oracle).2.2.length ≤ expireLookupsPerCron ∧
    (∀ e ∈ (expireCycleRound now db oracle).2.2, now > e.2 →
      dictFind (expireCycleRound now db oracle).1.dict e.1 = none ∧
      dictFind (expireCycleRound now db oracle).1.expires e.1 = none) ∧
    (expireCycleRound now db oracle).2.1 =
      ((expireCycleRound now db oracle).2.2.filter
        (fun e => decide (now > e.2))).length ∧
    (∀ m : Nat, expireCycleRepeats m = true ↔ 25 < m) ∧
    activeExpireCycle now db (oracle :: orest) =
      (if expireCycleRepeats (expireCycleRound now db oracle).2.1 = true then
        activeExpireCycle now (expireCycleRound now db oracle).1 orest
      else (expireCycleRound now db oracle).1) := by
  refine ⟨?_, ?_, ?_, ?_, ?_⟩
  · exact le_trans (expireLoop_sampled_le now oracle _ db)
      (min_le_right _ _)
  · intro e he hgt
    exact expireLoop_deletes_expired now oracle _ db e he hgt
  · exact expireLoop_expired_count now oracle _ db
  · intro m
    simp [expireCycleRepeats, expireLookupsPerCron]
  · rfl

/-- Witness for C8: one round on a database with one stale key deletes
it. -/
theorem C8_active_expiry_witness :
    dictFind (expireCycleRound 5
      (⟨[("a", RVal.rstr "x")], [("a", 1)], []⟩ : RedisDb) [0]).1.dict "a" =
      none :=
  ((C8_active_expiry 5 ⟨[("a", RVal.rstr "x")], [("a", 1)], []⟩ [0] []).2.1
    ("a", 1) (by decide) (by decide)).1

/-- Counterexample for C8 as stated: with only two volatile keys, both
stale, the sampled batch is 2 and 100% of it expired — more than 25% —
yet the cycle does not repeat, because the source compares the count
with the constant 25, not with a fraction of the batch. -/
theorem C8_repeat_counterexample :
    (expireCycleRound 5 (⟨[("a", RVal.rstr "x"), ("b", RVal.rstr "y")],
      [("a", 1), ("b", 1)], []⟩ : RedisDb) [0, 0]).2.2.length = 2 ∧
    (expireCycleRound 5 (⟨[("a", RVal.rstr "x"), ("b", RVal.rstr "y")],
      [("a", 1), ("b", 1)], []⟩ : RedisDb) [0, 0]).2.1 = 2 ∧
    4 * (expireCycleRound 5 (⟨[("a", RVal.rstr "x"), ("b", RVal.rstr "y")],
      [("a", 1), ("b", 1)], []⟩ : RedisDb) [0, 0]).2.1 >
      (expireCycleRound 5 (⟨[("a", RVal.rstr "x"), ("b", RVal.rstr "y")],
        [("a", 1), ("b", 1)], []⟩ : RedisDb) [0, 0]).2.2.length ∧
    expireCycleRepeats (expireCycleRound 5
      (⟨[("a", RVal.rstr "x"), ("b", RVal.rstr "y")],
        [("a", 1), ("b", 1)], []⟩ : RedisDb) [0, 0]).2.1 = false := by
  decide

/-- Bytes of an unterminated inline line never contain the newline
byte when they are all letter bytes. -/
theorem hasNewlineByte_replicate97 (m : Nat) :
    hasNewlineByte (List.replicate m 97) = false := by
  induction m with
  | zero => rfl
  | succ m _ih =>
      rw [List.replicate_succ]
      simp [hasNewlineByte, List.contains_cons]

/-- C9 (amended): an inline request whose buffer reaches 256 MiB
without a complete line is a protocol error that frees the client; a
negative or over-1-GiB bulk count produces the protocol error reply and
resets the parser state while keeping the connection; a bulk count up
to 1 GiB is accepted, and once armed the bulk payload is consumed with
no size check at all — even beyond 256 MiB. -/
theorem C9_request_limits (c : ParseClient) (n : Int) (bl : Nat) :
    (c.bulklen = none → hasNewlineByte c.querybuf = false →
      redisRequestMaxSize ≤ c.querybuf.length →
      processInputBufferStep c = ParseOutcome.closed) ∧
    ((n < 0 ∨ redisMaxBulkLen < n) →
      armBulkRead c n =
        ({ c with bulklen := none },
         [Reply.error "invalid bulk write count"], false)) ∧
    (0 ≤ n → n ≤ redisMaxBulkLen →
      armBulkRead c n =
        ({ c with bulklen := some (n.toNat + 2) }, [], false)) ∧
    (c.bulklen = some bl → bl ≤ c.querybuf.length →
      processInputBufferStep c =
        ParseOutcome.bulkReady (c.querybuf.take (bl - 2))
          ⟨c.querybuf.drop bl, none⟩) := by
  refine ⟨?_, ?_, ?_, ?_⟩
  · intro hb hn hlen
    unfold processInputBufferStep
    rw [hb]
    dsimp only
    rw [hn]
    rw [if_neg (by simp : ¬(false = true)), if_pos hlen]
  · intro hbad
    unfold armBulkRead
    rw [if_pos hbad]
  · intro h0 h1
    unfold armBulkRead
    rw [if_neg (by omega)]
  · intro hb hle
    unfold processInputBufferStep
    rw [hb]
    dsimp only
    rw [if_pos hle]

/-- Witness for C9: a 256 MiB unterminated inline buffer is closed; a
negative bulk count is refused with the connection kept. -/
theorem C9_request_limits_witness :
    processInputBufferStep ⟨List.replicate redisRequestMaxSize 97, none⟩ =
      ParseOutcome.closed ∧
    armBulkRead ⟨[], none⟩ (-1) =
      (⟨[], none⟩, [Reply.error "invalid bulk write count"], false) :=
  ⟨(C9_request_limits ⟨List.replicate redisRequestMaxSize 97, none⟩ 0 0).1
      rfl (hasNewlineByte_replicate97 _) (by simp),
   (C9_request_limits ⟨[], none⟩ (-1) 0).2.1 (Or.inl (by norm_num))⟩

/-- Counterexample for C9 as stated: a client in bulk-read mode with
more than 256 MiB buffered is not a protocol error — the payload is
consumed and the connection stays open. -/
theorem C9_bulk_over_limit_counterexample :
    redisRequestMaxSize <
      (List.replicate (redisRequestMaxSize + 2) 97).length ∧
    processInputBufferStep ⟨List.replicate (redisRequestMaxSize + 2) 97,
      some (redisRequestMaxSize + 2)⟩ ≠ ParseOutcome.closed := by
  constructor
  · simp
  · unfold processInputBufferStep
    dsimp only
    rw [if_pos (by simp :
      redisRequestMaxSize + 2 ≤
        (List.replicate (redisRequestMaxSize + 2) 97).length)]
    simp
